import Mathlib

/-!
# Reference discovery of `internal/method/reference.go`

A shallow embedding of the reference searcher (`ReferenceSearcher.search`,
`getRefFieldName`, `getSelectorFieldName`, `getTypeCodeFromPath`) and of the
synthesizer `NewResolveReferences`, with the properties of the references
discovered and of the method generated from them.

Conventions of the embedding:

* a Go `string` is a Lean `String`; `strings.Split`, `strings.Join` and
  `strings.TrimSuffix` work on the list of characters (the separators used
  by the source are ASCII, so splitting bytes and splitting characters agree
  on UTF-8 text);
* a run-time panic (indexing `vals[0]` of an empty slice) is the outcome
  `none`; a Go `error` is an `Option String`, `none` being `nil`;
* the receiver `rs *ReferenceSearcher` is passed and returned explicitly;
* generated code is the tree of `jen` items (`Code`), not rendered text; the
  generated method is read back through the statements it contains;
* the types of `go/types` are a finite tree (`GoType`), which is the
  "finite, acyclic nesting" the traversal relies on.
-/

set_option autoImplicit false

namespace Method

/-! ## Constants -/

def ReferenceTypeMarker : String := "crossplane:generate:reference:type"
def ReferenceExtractorMarker : String := "crossplane:generate:reference:extractor"
def ReferenceReferenceFieldNameMarker : String := "crossplane:generate:reference:refFieldName"
def ReferenceSelectorFieldNameMarker : String := "crossplane:generate:reference:selectorFieldName"

/-! ## Package `strings` -/

/-- Pieces of a character list between the occurrences of `sep`. -/
def splitChars (sep : Char) : List Char → List (List Char)
  | [] => [[]]
  | c :: cs =>
    if c = sep then [] :: splitChars sep cs
    else
      match splitChars sep cs with
      | [] => [[c]]
      | w :: ws => (c :: w) :: ws

/-- Go `strings.Split(s, sep)` for a separator of one character. -/
def strings.Split (s : String) (sep : Char) : List String :=
  (splitChars sep s.data).map String.mk

/-- Go `strings.Join(elems, sep)`. -/
def strings.Join : List String → String → String
  | [], _ => ""
  | [a], _ => a
  | a :: b :: rest, sep => a ++ sep ++ strings.Join (b :: rest) sep

/-- Go `strings.TrimSuffix(s, suffix)`. -/
def strings.TrimSuffix (s suffix : String) : String :=
  if suffix.data.isSuffixOf s.data then
    String.mk (s.data.take (s.data.length - suffix.data.length))
  else s

/-! ## Package `errors` -/

/-- A Go `error`: `none` is `nil`, `some msg` an error with that message. -/
abbrev error := Option String

/-- Function `errors.Wrap` of github.com/pkg/errors: `nil` stays `nil`. -/
def errors.Wrap (err : error) (message : String) : error :=
  err.map (fun cause => message ++ ": " ++ cause)

/-! ## Package `jen`: the code items the searcher builds -/

/-- Items of a `jen.Statement`. -/
inductive Code where
  | Id (name : String)
  | Op (op : String)
  | Qual (path name : String)
  | Dot (name : String)
  | Lit (v : String)
  | Err
  | Nil
  | Line
  | Var
  | Error
  | Func
  | Comment (text : String)
  | Call (params : List Code)
  | Values (values : List Code)
  | Params (params : List Code)
  | ListOf (items : List Code)
  | If (conditions : List Code)
  | Block (statements : List Code)
  | Return (results : List Code)
  | Dict (entries : List (Code × Code))
  | Stmt (items : List Code)

/-- A `jen.Statement`: a sequence of items built by method chaining. -/
abbrev Statement := List Code

/-! ## Package `go/types` and the field comments -/

/-- A marker set, Go `map[string][]string`, as an association list. -/
abbrev Markers := List (String × List String)

mutual
/-- Types of `go/types`; `Basic` stands for every type that is not a named
type, a pointer, a slice or a struct. -/
inductive GoType where
  | Basic (name : String)
  | Named (n : Named)
  | Pointer (elem : GoType)
  | Slice (elem : GoType)
  | Struct (fields : List Var)
/-- A `*types.Named`: the name of its object and its underlying type. -/
inductive Named where
  | mk (name : String) (underlying : GoType)
/-- A struct field (`*types.Var`): declaration position, name and type. -/
inductive Var where
  | mk (pos : Nat) (name : String) (type : GoType)
end

def Named.Name : Named → String
  | .mk name _ => name

def Named.Underlying : Named → GoType
  | .mk _ underlying => underlying

def Var.Pos : Var → Nat
  | .mk pos _ _ => pos

def Var.Name : Var → String
  | .mk _ name _ => name

def Var.Type : Var → GoType
  | .mk _ _ type => type

/-- Modelled from the spec: package `comments` is not among the sources.
`MarkersFor field` stands for `comments.ParseMarkers(c.For(field))`, "a
mapping from marker name to ordered list of raw string values, attached to
one field". -/
structure Comments where
  MarkersFor : Var → Markers

/-- Go `m[key]` on a marker set: the values, `nil` when the key is absent. -/
def Markers.index (m : Markers) (key : String) : List String :=
  (m.lookup key).getD []

/-! ## The searcher -/

structure Reference where
  RemoteType : Statement
  Extractor : Statement
  RemoteListType : Statement
  GoValueFieldPath : String
  GoRefFieldPath : String
  GoSelectorFieldPath : String
  IsList : Bool
  IsPointer : Bool

structure ReferenceSearcher where
  Comments : Comments
  DefaultExtractor : Statement
  refs : List Reference

def NewReferenceSearcher (comm : Comments) (defaultExtractor : Statement) : ReferenceSearcher :=
  { Comments := comm, DefaultExtractor := defaultExtractor, refs := [] }

/-- Source `getTypeCodeFromPath(path, nameSuffix...)`. -/
def getTypeCodeFromPath (path : String) (nameSuffix : List String) : Statement :=
  let words := strings.Split path '.'
  if words.length = 1 then
    [Code.Op "&", Code.Id (path ++ strings.Join nameSuffix ""), Code.Values []]
  else
    let last := words.getLastD ""
    let name := last ++ strings.Join nameSuffix ""
    let pkg := strings.TrimSuffix path ("." ++ last)
    [Code.Op "&", Code.Qual pkg name, Code.Values []]

/-- Source `getRefFieldName`; `none` is the panic of `vals[0]` on a marker
that is present without a value. -/
def getRefFieldName (markers : Markers) (valueFieldPath : String) (isList : Bool) :
    Option String :=
  match markers.lookup ReferenceReferenceFieldNameMarker with
  | some vals =>
    let f := strings.Split valueFieldPath '.'
    match vals with
    | [] => none
    | v :: _ => some (strings.Join f.dropLast "." ++ "." ++ v)
  | none =>
    if isList then some (valueFieldPath ++ "Refs")
    else some (valueFieldPath ++ "Ref")

/-- Source `getSelectorFieldName`; `none` is the panic of `vals[0]`. -/
def getSelectorFieldName (markers : Markers) (valueFieldPath : String) : Option String :=
  match markers.lookup ReferenceSelectorFieldNameMarker with
  | some vals =>
    let f := strings.Split valueFieldPath '.'
    match vals with
    | [] => none
    | v :: _ => some (strings.Join f.dropLast "." ++ "." ++ v)
  | none => some (valueFieldPath ++ "Selector")

/-- Lines 230 to 252 of `search`: the marker inspection of one field, after
the type switch has set `isPointer` and `isList`. The searcher is returned
unchanged when the field has no reference-type value (`continue`). -/
def searchMarkers (rs : ReferenceSearcher) (field : Var) (fields : List String)
    (isPointer isList : Bool) : Option ReferenceSearcher :=
  let markers := rs.Comments.MarkersFor field
  let refTypeValues := markers.index ReferenceTypeMarker
  match refTypeValues with
  | [] => some rs
  | refType :: _ =>
    let extractorValues := markers.index ReferenceExtractorMarker
    let extractorPath :=
      match extractorValues with
      | [] => rs.DefaultExtractor
      | e :: _ => getTypeCodeFromPath e []
    let fieldPath := strings.Join (fields ++ [field.Name]) "."
    match getRefFieldName markers fieldPath isList, getSelectorFieldName markers fieldPath with
    | some refPath, some selPath =>
      some { rs with refs := rs.refs ++ [
        { RemoteType := getTypeCodeFromPath refType []
          RemoteListType := getTypeCodeFromPath refType ["List"]
          Extractor := extractorPath
          GoValueFieldPath := fieldPath
          GoRefFieldPath := refPath
          GoSelectorFieldPath := selPath
          IsPointer := isPointer
          IsList := isList }] }
    | _, _ => none

mutual
/-- Source `(rs *ReferenceSearcher) search(n, fields...)`: the searcher after
the call and the error returned; `none` when the call panics. -/
def search (rs : ReferenceSearcher) : Named → List String → Option (ReferenceSearcher × error)
  | .mk _ (.Struct s), fields => searchLoop rs s fields
  | .mk _ _, _ => some (rs, none)
/-- The `for` loop of `search` over the fields that remain. -/
def searchLoop (rs : ReferenceSearcher) : List Var → List String →
    Option (ReferenceSearcher × error)
  | [], _ => some (rs, none)
  | .mk pos name type :: rest, fields =>
    match searchSwitch rs name type fields with
    | none => none
    | some (rs1, some err, _, _) => some (rs1, some err)
    | some (rs1, none, isPointer, isList) =>
      match searchMarkers rs1 (.mk pos name type) fields isPointer isList with
      | none => none
      | some rs2 => searchLoop rs2 rest fields
/-- The type switch of `search` on the type of the field called `name`: the
searcher after it, the error it returns from `search` with (if any), and the
flags `isPointer` and `isList`. -/
def searchSwitch (rs : ReferenceSearcher) (name : String) : GoType → List String →
    Option (ReferenceSearcher × error × Bool × Bool)
  | .Named ft, fields =>
    match search rs ft (fields ++ [name]) with
    | none => none
    | some (rs1, err) =>
      some (rs1, errors.Wrap err ("cannot search for references in " ++ ft.Name), false, false)
  | .Pointer (.Named elemType), fields =>
    match search rs elemType (fields ++ ["*" ++ name]) with
    | none => none
    | some (rs1, err) =>
      some (rs1, errors.Wrap err ("cannot search for references in " ++ elemType.Name), true, false)
  | .Pointer _, _ => some (rs, none, true, false)
  | .Slice (.Named elemType), fields =>
    match search rs elemType (fields ++ ["[]" ++ name]) with
    | none => none
    | some (rs1, err) =>
      some (rs1, errors.Wrap err ("cannot search for references in " ++ elemType.Name), false, true)
  | .Slice _, _ => some (rs, none, false, true)
  | _, _ => some (rs, none, false, false)
end

/-- Source `(rs *ReferenceSearcher) Search(n)`: the list and the error
returned, and the searcher after the call. The list is `rs.refs` as the
call to `search` leaves it: Go leaves the order between the read of
`rs.refs` and the call in the one `return` statement open, and the gc
compiler performs the call first. -/
def ReferenceSearcher.Search (rs : ReferenceSearcher) (n : Named) :
    Option (List Reference × error × ReferenceSearcher) :=
  match search rs n [] with
  | none => none
  | some (rs1, err) => some (rs1.refs, errors.Wrap err "search for references failed", rs1)

/-- The list `Search` returns on a newly constructed searcher; `none` when
the search panics. -/
def discover (comm : Comments) (defaultExtractor : Statement) (n : Named) :
    Option (List Reference) :=
  ((NewReferenceSearcher comm defaultExtractor).Search n).map (fun out => out.1)

/-! ## Specification side: the fields the traversal reaches -/

def isPointerType : GoType → Bool
  | .Pointer _ => true
  | _ => false

def isSliceType : GoType → Bool
  | .Slice _ => true
  | _ => false

/-- The path segment that `search` records for an enclosing field before it
descends into the field's type: the bare name for a field of a named type,
the name after "*" for a pointer field, the name after "[]" for a slice
field. -/
def segment (v : Var) : String :=
  match v.Type with
  | .Pointer _ => "*" ++ v.Name
  | .Slice _ => "[]" ++ v.Name
  | _ => v.Name

mutual
/-- The fields reached from a named type, each with the chain of enclosing
fields (outermost first), in the order in which their markers are inspected:
for every field in declaration order, first the fields reached inside its
type, then the field itself. -/
def visitNamed : Named → List Var → List (List Var × Var)
  | .mk _ (.Struct s), chain => visitFields s chain
  | .mk _ _, _ => []
termination_by structural n => n
def visitFields : List Var → List Var → List (List Var × Var)
  | [], _ => []
  | .mk pos name type :: rest, chain =>
    visitType (.mk pos name type) type chain ++ [(chain, .mk pos name type)]
      ++ visitFields rest chain
termination_by structural s => s
/-- The fields reached inside the type of field `v`: those of the named
type when the field is a named type, a pointer to one or a slice of one. -/
def visitType (v : Var) : GoType → List Var → List (List Var × Var)
  | .Named ft, chain => visitNamed ft (chain ++ [v])
  | .Pointer (.Named elemType), chain => visitNamed elemType (chain ++ [v])
  | .Slice (.Named elemType), chain => visitNamed elemType (chain ++ [v])
  | _, _ => []
termination_by structural type => type
end

/-- The field carries a reference-type marker with at least one value. -/
def marked (comm : Comments) (e : List Var × Var) : Bool :=
  !((comm.MarkersFor e.2).index ReferenceTypeMarker).isEmpty

/-- The reached fields that carry a reference-type value, in traversal order. -/
def markedFields (comm : Comments) (n : Named) : List (List Var × Var) :=
  (visitNamed n []).filter (marked comm)

/-- The searcher with `found` appended to its references. -/
def ReferenceSearcher.found (rs : ReferenceSearcher) (found : List Reference) :
    ReferenceSearcher :=
  { rs with refs := rs.refs ++ found }

/-- One iteration of the marker inspection on a reached field. -/
def step (rs : ReferenceSearcher) (e : List Var × Var) : Option ReferenceSearcher :=
  searchMarkers rs e.2 (e.1.map segment) (isPointerType e.2.Type) (isSliceType e.2.Type)

/-- The Reference of a reached field `e.2` under the enclosing fields `e.1`,
`none` when the field has no reference-type value. The two override paths
are those of `getRefFieldName` and `getSelectorFieldName` (the empty string
stands in where these panic). -/
def ownReference (comm : Comments) (defaultExtractor : Statement) (e : List Var × Var) :
    Option Reference :=
  let markers := comm.MarkersFor e.2
  match markers.index ReferenceTypeMarker with
  | [] => none
  | refType :: _ =>
    let fieldPath := strings.Join (e.1.map segment ++ [e.2.Name]) "."
    some
      { RemoteType := getTypeCodeFromPath refType []
        RemoteListType := getTypeCodeFromPath refType ["List"]
        Extractor :=
          match markers.index ReferenceExtractorMarker with
          | [] => defaultExtractor
          | v :: _ => getTypeCodeFromPath v []
        GoValueFieldPath := fieldPath
        GoRefFieldPath := (getRefFieldName markers fieldPath (isSliceType e.2.Type)).getD ""
        GoSelectorFieldPath := (getSelectorFieldName markers fieldPath).getD ""
        IsPointer := isPointerType e.2.Type
        IsList := isSliceType e.2.Type }

mutual
/-- The list `refsOf` of the specification: for a struct type, the
concatenation over its fields in declaration order of the `refsOf` of the
field's element type (for a named type, a pointer to one, a slice of one)
followed by the field's own Reference when it carries a reference-type
value; empty for a type that is not a struct. -/
def refsOf (comm : Comments) (d : Statement) : Named → List Var → List Reference
  | .mk _ (.Struct s), chain => refsOfFields comm d s chain
  | .mk _ _, _ => []
termination_by structural n => n
def refsOfFields (comm : Comments) (d : Statement) : List Var → List Var → List Reference
  | [], _ => []
  | .mk pos name type :: rest, chain =>
    refsOfElem comm d (.mk pos name type) type chain
      ++ (ownReference comm d (chain, .mk pos name type)).toList
      ++ refsOfFields comm d rest chain
termination_by structural s => s
def refsOfElem (comm : Comments) (d : Statement) (v : Var) :
    GoType → List Var → List Reference
  | .Named ft, chain => refsOf comm d ft (chain ++ [v])
  | .Pointer (.Named elemType), chain => refsOf comm d elemType (chain ++ [v])
  | .Slice (.Named elemType), chain => refsOf comm d elemType (chain ++ [v])
  | _, _ => []
termination_by structural type => type
end

/-- Every reached field of `n` with a reference-type value has a value for
each override marker (refFieldName, selectorFieldName) that it carries: the
case in which `vals[0]` is defined. -/
def OverridesHaveValues (comm : Comments) (n : Named) : Prop :=
  ∀ e ∈ markedFields comm n,
    (comm.MarkersFor e.2).lookup ReferenceReferenceFieldNameMarker ≠ some [] ∧
    (comm.MarkersFor e.2).lookup ReferenceSelectorFieldNameMarker ≠ some []

/-- The type reference `l` is the list form of `t`: the same package (or
none) and the identifier of `t` followed by "List". -/
def IsListTypeOf (t l : Statement) : Prop :=
  (∃ name, t = [Code.Op "&", Code.Id name, Code.Values []] ∧
      l = [Code.Op "&", Code.Id (name ++ "List"), Code.Values []]) ∨
  (∃ pkg name, t = [Code.Op "&", Code.Qual pkg name, Code.Values []] ∧
      l = [Code.Op "&", Code.Qual pkg (name ++ "List"), Code.Values []])

/-! ## Example types and comments -/

def stringType : GoType := .Basic "string"

/-- The default extractor `jen.Qual(referencePath, "ExternalName").Call()`
that `NewResolveReferences` passes, for the reference path "reference". -/
def externalName : Statement := [Code.Qual "reference" "ExternalName", Code.Call []]

/-- Comments in which every field called `Bucket` or `Buckets` carries the
reference-type marker with value `BucketRef` and no other marker. -/
def bucketComments : Comments :=
  ⟨fun field =>
    if field.Name = "Bucket" ∨ field.Name = "Buckets" then
      [(ReferenceTypeMarker, ["BucketRef"])]
    else []⟩

/-- Go `type Single struct { Bucket string }`. -/
def singleType : Named := .mk "Single" (.Struct [.mk 1 "Bucket" stringType])

def singleReference : Reference :=
  { RemoteType := [Code.Op "&", Code.Id "BucketRef", Code.Values []]
    Extractor := externalName
    RemoteListType := [Code.Op "&", Code.Id "BucketRefList", Code.Values []]
    GoValueFieldPath := "Bucket"
    GoRefFieldPath := "BucketRef"
    GoSelectorFieldPath := "BucketSelector"
    IsList := false
    IsPointer := false }

/-- Go `type Many struct { Buckets []string }`. -/
def manyType : Named := .mk "Many" (.Struct [.mk 1 "Buckets" (.Slice stringType)])

def manyReference : Reference :=
  { RemoteType := [Code.Op "&", Code.Id "BucketRef", Code.Values []]
    Extractor := externalName
    RemoteListType := [Code.Op "&", Code.Id "BucketRefList", Code.Values []]
    GoValueFieldPath := "Buckets"
    GoRefFieldPath := "BucketsRefs"
    GoSelectorFieldPath := "BucketsSelector"
    IsList := true
    IsPointer := false }

/-- Go `type Params struct { Bucket string }`. -/
def paramsType : Named := .mk "Params" (.Struct [.mk 2 "Bucket" stringType])

/-- Go `type Outer struct { Spec *Params }`. -/
def outerType : Named := .mk "Outer" (.Struct [.mk 1 "Spec" (.Pointer (.Named paramsType))])

def outerReference : Reference :=
  { RemoteType := [Code.Op "&", Code.Id "BucketRef", Code.Values []]
    Extractor := externalName
    RemoteListType := [Code.Op "&", Code.Id "BucketRefList", Code.Values []]
    GoValueFieldPath := "*Spec.Bucket"
    GoRefFieldPath := "*Spec.BucketRef"
    GoSelectorFieldPath := "*Spec.BucketSelector"
    IsList := false
    IsPointer := false }

/-- Go `type Nested struct { Spec Params; Bucket string }`. -/
def nestedType : Named :=
  .mk "Nested" (.Struct [.mk 1 "Spec" (.Named paramsType), .mk 3 "Bucket" stringType])

def nestedSpecReference : Reference :=
  { RemoteType := [Code.Op "&", Code.Id "BucketRef", Code.Values []]
    Extractor := externalName
    RemoteListType := [Code.Op "&", Code.Id "BucketRefList", Code.Values []]
    GoValueFieldPath := "Spec.Bucket"
    GoRefFieldPath := "Spec.BucketRef"
    GoSelectorFieldPath := "Spec.BucketSelector"
    IsList := false
    IsPointer := false }

/-- Go `type Optional struct { Bucket *string }`. -/
def optionalType : Named := .mk "Optional" (.Struct [.mk 1 "Bucket" (.Pointer stringType)])

def optionalReference : Reference :=
  { RemoteType := [Code.Op "&", Code.Id "BucketRef", Code.Values []]
    Extractor := externalName
    RemoteListType := [Code.Op "&", Code.Id "BucketRefList", Code.Values []]
    GoValueFieldPath := "Bucket"
    GoRefFieldPath := "BucketRef"
    GoSelectorFieldPath := "BucketSelector"
    IsList := false
    IsPointer := true }

/-- Comments in which the field `Bucket` carries a reference-type marker and
an extractor marker, both with an import path. -/
def qualifiedComments : Comments :=
  ⟨fun field =>
    if field.Name = "Bucket" then
      [(ReferenceTypeMarker, ["example.org/apis.Bucket"]),
       (ReferenceExtractorMarker, ["example.org/apis.BucketARN"])]
    else []⟩

def qualifiedReference : Reference :=
  { RemoteType := [Code.Op "&", Code.Qual "example.org/apis" "Bucket", Code.Values []]
    Extractor := [Code.Op "&", Code.Qual "example.org/apis" "BucketARN", Code.Values []]
    RemoteListType := [Code.Op "&", Code.Qual "example.org/apis" "BucketList", Code.Values []]
    GoValueFieldPath := "Bucket"
    GoRefFieldPath := "BucketRef"
    GoSelectorFieldPath := "BucketSelector"
    IsList := false
    IsPointer := false }

/-- Comments without any marker. -/
def noComments : Comments := ⟨fun _ => []⟩

/-- Comments in which the field `Bucket` carries a reference-type marker and
the two override markers refFieldName and selectorFieldName. -/
def overrideComments : Comments :=
  ⟨fun field =>
    if field.Name = "Bucket" then
      [(ReferenceTypeMarker, ["BucketRef"]),
       (ReferenceReferenceFieldNameMarker, ["BucketReference"]),
       (ReferenceSelectorFieldNameMarker, ["BucketSel"])]
    else []⟩

/-- Go `type Name string`: a named type that is not a struct. -/
def nameType : Named := .mk "Name" stringType

/-! ## The synthesizer `NewResolveReferences` -/

/-- An object of `go/types` (`types.Object`): its name and its type. -/
inductive Object where
  | mk (name : String) (type : GoType)

def Object.Name : Object → String
  | .mk name _ => name

def Object.Type : Object → GoType
  | .mk _ type => type

/-- A `jen.File`: the statements added to the file, in order. -/
abbrev File := List Statement

/-- Method `Clone` of a `jen.Statement`: a new statement that holds the
original as its single item, so that appending leaves the original alone. -/
def Clone (s : Statement) : Statement := [Code.Stmt s]

/-- The loops at lines 63 to 74 of `NewResolveReferences`: `jen.Id(receiver)`
with one `.Dot(fieldName)` appended for each piece of `strings.Split(path, ".")`. -/
def dotPath (receiver path : String) : Statement :=
  (strings.Split path '.').foldl (fun s fieldName => s ++ [Code.Dot fieldName])
    [Code.Id receiver]

/-- Lines 63 to 133 of `NewResolveReferences`: the statement `code` built
for one reference. The entries of a `jen.Dict` are kept in source order. -/
def resolverCall (receiver referencePath : String) (ref : Reference) : Statement :=
  let currentValuePath := dotPath receiver ref.GoValueFieldPath
  let referenceFieldPath := dotPath receiver ref.GoRefFieldPath
  let selectorFieldPath := dotPath receiver ref.GoSelectorFieldPath
  if ref.IsList then
    [ Code.Stmt [Code.ListOf [Code.Stmt [Code.Id "mrsp"], Code.Stmt [Code.Err]], Code.Op "=",
        Code.Id "r", Code.Dot "ResolveMultiple",
        Code.Call [Code.Stmt [Code.Id "ctx"],
          Code.Stmt [Code.Qual referencePath "MultiResolutionRequest", Code.Values [Code.Dict [
            (Code.Stmt [Code.Id "CurrentValues"], Code.Stmt currentValuePath),
            (Code.Stmt [Code.Id "References"], Code.Stmt referenceFieldPath),
            (Code.Stmt [Code.Id "Selector"], Code.Stmt selectorFieldPath),
            (Code.Stmt [Code.Id "To"],
              Code.Stmt [Code.Qual referencePath "To", Code.Values [Code.Dict [
                (Code.Stmt [Code.Id "Managed"], Code.Stmt ref.RemoteType),
                (Code.Stmt [Code.Id "List"], Code.Stmt ref.RemoteListType)]]]),
            (Code.Stmt [Code.Id "Extract"], Code.Stmt ref.Extractor)]]]]],
      Code.Stmt [Code.Line],
      Code.Stmt [Code.If [Code.Stmt [Code.Err, Code.Op "!=", Code.Nil]],
        Code.Block [Code.Stmt [Code.Return [Code.Stmt [
          Code.Qual "github.com/pkg/errors" "Wrapf",
          Code.Call [Code.Stmt [Code.Err], Code.Stmt [Code.Lit ref.GoValueFieldPath]]]]]]],
      Code.Stmt [Code.Line],
      Code.Stmt (Clone currentValuePath ++
        [Code.Op "=", Code.Id "mrsp", Code.Dot "ResolvedValues"]),
      Code.Stmt [Code.Line],
      Code.Stmt (Clone referenceFieldPath ++
        [Code.Op "=", Code.Id "mrsp", Code.Dot "ResolvedReferences"]),
      Code.Stmt [Code.Line] ]
  else
    let setResolvedValue :=
      if ref.IsPointer then
        Clone currentValuePath ++ [Code.Op "=", Code.Qual referencePath "ToPtrValue",
          Code.Call [Code.Stmt [Code.Id "rsp", Code.Dot "ResolvedValue"]]]
      else
        Clone currentValuePath ++ [Code.Op "=", Code.Id "rsp", Code.Dot "ResolvedValue"]
    let currentValuePath1 :=
      if ref.IsPointer then
        [Code.Qual referencePath "FromPtrValue", Code.Call [Code.Stmt currentValuePath]]
      else currentValuePath
    [ Code.Stmt [Code.ListOf [Code.Stmt [Code.Id "rsp"], Code.Stmt [Code.Err]], Code.Op "=",
        Code.Id "r", Code.Dot "Resolve",
        Code.Call [Code.Stmt [Code.Id "ctx"],
          Code.Stmt [Code.Qual referencePath "ResolutionRequest", Code.Values [Code.Dict [
            (Code.Stmt [Code.Id "CurrentValue"], Code.Stmt currentValuePath1),
            (Code.Stmt [Code.Id "Reference"], Code.Stmt referenceFieldPath),
            (Code.Stmt [Code.Id "Selector"], Code.Stmt selectorFieldPath),
            (Code.Stmt [Code.Id "To"],
              Code.Stmt [Code.Qual referencePath "To", Code.Values [Code.Dict [
                (Code.Stmt [Code.Id "Managed"], Code.Stmt ref.RemoteType),
                (Code.Stmt [Code.Id "List"], Code.Stmt ref.RemoteListType)]]]),
            (Code.Stmt [Code.Id "Extract"], Code.Stmt ref.Extractor)]]]]],
      Code.Stmt [Code.Line],
      Code.Stmt [Code.If [Code.Stmt [Code.Err, Code.Op "!=", Code.Nil]],
        Code.Block [Code.Stmt [Code.Return [Code.Stmt [
          Code.Qual "github.com/pkg/errors" "Wrapf",
          Code.Call [Code.Stmt [Code.Err], Code.Stmt [Code.Lit ref.GoValueFieldPath]]]]]]],
      Code.Stmt [Code.Line],
      Code.Stmt setResolvedValue,
      Code.Stmt [Code.Line],
      Code.Stmt (Clone referenceFieldPath ++
        [Code.Op "=", Code.Id "rsp", Code.Dot "ResolvedReference"]),
      Code.Stmt [Code.Line] ]

/-- The loop at lines 57 to 135: the flags `hasMultiResolution` and
`hasSingleResolution` and the statement `resolverCalls` after the
references in `refs` have been handled, starting from `st`. -/
def resolverLoop (receiver referencePath : String) (refs : List Reference)
    (st : Bool × Bool × Statement) : Bool × Bool × Statement :=
  refs.foldl
    (fun st ref =>
      let code := Code.Stmt (resolverCall receiver referencePath ref)
      if ref.IsList then (true, st.2.1, st.2.2 ++ [code])
      else (st.1, true, st.2.2 ++ [code]))
    st

/-- The default extractor `jen.Qual(referencePath, "ExternalName").Call()`. -/
def defaultExtractor (referencePath : String) : Statement :=
  [Code.Qual referencePath "ExternalName", Code.Call []]

/-- Source `NewResolveReferences(comm, receiver, clientPath, referencePath)`
applied to a file and an object: the file after the call, `none` when the
call panics. -/
def NewResolveReferences (comm : Comments) (receiver clientPath referencePath : String)
    (f : File) (o : Object) : Option File :=
  match o.Type with
  | .Named n =>
    let rs := NewReferenceSearcher comm (defaultExtractor referencePath)
    match rs.Search n with
    | none => none
    | some (_, some _, _) => none
    | some (refs, none, _) =>
      if refs.length = 0 then some f
      else
        let loop := resolverLoop receiver referencePath refs (false, false, [])
        let hasMultiResolution := loop.1
        let hasSingleResolution := loop.2.1
        let resolverCalls := loop.2.2
        let initStatements : Statement :=
          (if hasSingleResolution then
            [Code.Stmt [Code.Var, Code.Id "rsp", Code.Qual referencePath "ResolutionResponse"],
             Code.Stmt [Code.Line]]
           else []) ++
          (if hasMultiResolution then
            [Code.Stmt [Code.Var, Code.Id "mrsp",
              Code.Qual referencePath "MultiResolutionResponse"]]
           else [])
        some (f ++
          [ [Code.Comment ("ResolveReferences of this " ++ o.Name ++ ".")],
            [Code.Func, Code.Params [Code.Stmt [Code.Id receiver, Code.Op "*", Code.Id o.Name]],
             Code.Id "ResolveReferences",
             Code.Params [Code.Stmt [Code.Id "ctx", Code.Qual "context" "Context"],
               Code.Stmt [Code.Id "c", Code.Qual clientPath "Reader"]],
             Code.Error,
             Code.Block [
               Code.Stmt [Code.Id "r", Code.Op ":=", Code.Qual referencePath "NewAPIResolver",
                 Code.Call [Code.Stmt [Code.Id "c"], Code.Stmt [Code.Id receiver]]],
               Code.Stmt [Code.Line],
               Code.Stmt initStatements,
               Code.Stmt [Code.Var, Code.Err, Code.Error],
               Code.Stmt [Code.Line],
               Code.Stmt resolverCalls,
               Code.Stmt [Code.Line],
               Code.Stmt [Code.Return [Code.Stmt [Code.Nil]]] ] ] ])
  | _ => some f

/-! ## Specification side: reading the generated method -/

mutual
/-- All statements that occur in a piece of code, outermost first and in
source order. -/
def Code.statements : Code → List Statement
  | .Stmt items => items :: statementsOf items
  | .Call params => statementsOf params
  | .Values values => statementsOf values
  | .Params params => statementsOf params
  | .ListOf items => statementsOf items
  | .If conditions => statementsOf conditions
  | .Block statements => statementsOf statements
  | .Return results => statementsOf results
  | .Dict entries => statementsOfDict entries
  | _ => []
termination_by structural c => c
def statementsOf : List Code → List Statement
  | [] => []
  | c :: cs => c.statements ++ statementsOf cs
termination_by structural l => l
def statementsOfDict : List (Code × Code) → List Statement
  | [] => []
  | (k, v) :: rest => k.statements ++ v.statements ++ statementsOfDict rest
termination_by structural l => l
end

/-- What a statement of the generated method does. -/
inductive Event where
  /-- Statement `var <items>`. -/
  | declare (items : Statement)
  /-- Statement `<targets> <op> <receiver>.<method>(<args>)`. -/
  | call (targets : List Code) (op receiver method : String) (args : List Code)
  /-- Statement `if <conditions> { <body> }`. -/
  | check (conditions body : List Code)
  /-- Statement `<target> <op> <value>` whose target is a cloned statement. -/
  | assign (target : Statement) (op : String) (value : Statement)

/-- The event of a statement, by its leading items. -/
def classify : Statement → Option Event
  | Code.Var :: items => some (.declare items)
  | [Code.ListOf targets, Code.Op op, Code.Id receiver, Code.Dot method, Code.Call args] =>
    some (.call targets op receiver method args)
  | [Code.If conditions, Code.Block body] => some (.check conditions body)
  | Code.Stmt target :: Code.Op op :: value => some (.assign target op value)
  | _ => none

/-- The events of the statements within a piece of code, in source order. -/
def Code.events (c : Code) : List Event :=
  c.statements.filterMap classify

/-- The events of the statements within a list of items, in source order. -/
def eventsOf (l : List Code) : List Event :=
  (statementsOf l).filterMap classify

/-- The events of a statement and of all statements within it, in source
order. -/
def events (s : Statement) : List Event :=
  (Code.Stmt s).events

/-- The receiver field access named by a dotted path: `receiver` followed
by one selector for each "."-separated piece of the path. -/
def fieldAccess (receiver path : String) : Statement :=
  Code.Id receiver :: (strings.Split path '.').map Code.Dot

/-- The value stored under the key `jen.Id(key)` in the entries of a
`jen.Dict`. -/
def dictGet (entries : List (Code × Code)) (key : String) : Option Code :=
  match entries with
  | [] => none
  | (Code.Stmt [Code.Id k], v) :: rest => if k = key then some v else dictGet rest key
  | _ :: rest => dictGet rest key

/-- The events expected of the step generated for one reference: the
resolution call, the error check, the assignment to the value field and the
assignment to the reference field. -/
def stepEvents (receiver referencePath : String) (ref : Reference) : List Event :=
  if ref.IsList then
    [ Event.call [Code.Stmt [Code.Id "mrsp"], Code.Stmt [Code.Err]] "=" "r" "ResolveMultiple"
        [Code.Stmt [Code.Id "ctx"],
          Code.Stmt [Code.Qual referencePath "MultiResolutionRequest", Code.Values [Code.Dict [
            (Code.Stmt [Code.Id "CurrentValues"],
              Code.Stmt (fieldAccess receiver ref.GoValueFieldPath)),
            (Code.Stmt [Code.Id "References"],
              Code.Stmt (fieldAccess receiver ref.GoRefFieldPath)),
            (Code.Stmt [Code.Id "Selector"],
              Code.Stmt (fieldAccess receiver ref.GoSelectorFieldPath)),
            (Code.Stmt [Code.Id "To"],
              Code.Stmt [Code.Qual referencePath "To", Code.Values [Code.Dict [
                (Code.Stmt [Code.Id "Managed"], Code.Stmt ref.RemoteType),
                (Code.Stmt [Code.Id "List"], Code.Stmt ref.RemoteListType)]]]),
            (Code.Stmt [Code.Id "Extract"], Code.Stmt ref.Extractor)]]]],
      Event.check [Code.Stmt [Code.Err, Code.Op "!=", Code.Nil]]
        [Code.Stmt [Code.Return [Code.Stmt [Code.Qual "github.com/pkg/errors" "Wrapf",
          Code.Call [Code.Stmt [Code.Err], Code.Stmt [Code.Lit ref.GoValueFieldPath]]]]]],
      Event.assign (fieldAccess receiver ref.GoValueFieldPath) "="
        [Code.Id "mrsp", Code.Dot "ResolvedValues"],
      Event.assign (fieldAccess receiver ref.GoRefFieldPath) "="
        [Code.Id "mrsp", Code.Dot "ResolvedReferences"] ]
  else
    [ Event.call [Code.Stmt [Code.Id "rsp"], Code.Stmt [Code.Err]] "=" "r" "Resolve"
        [Code.Stmt [Code.Id "ctx"],
          Code.Stmt [Code.Qual referencePath "ResolutionRequest", Code.Values [Code.Dict [
            (Code.Stmt [Code.Id "CurrentValue"],
              Code.Stmt
                (if ref.IsPointer then
                  [Code.Qual referencePath "FromPtrValue",
                    Code.Call [Code.Stmt (fieldAccess receiver ref.GoValueFieldPath)]]
                else fieldAccess receiver ref.GoValueFieldPath)),
            (Code.Stmt [Code.Id "Reference"],
              Code.Stmt (fieldAccess receiver ref.GoRefFieldPath)),
            (Code.Stmt [Code.Id "Selector"],
              Code.Stmt (fieldAccess receiver ref.GoSelectorFieldPath)),
            (Code.Stmt [Code.Id "To"],
              Code.Stmt [Code.Qual referencePath "To", Code.Values [Code.Dict [
                (Code.Stmt [Code.Id "Managed"], Code.Stmt ref.RemoteType),
                (Code.Stmt [Code.Id "List"], Code.Stmt ref.RemoteListType)]]]),
            (Code.Stmt [Code.Id "Extract"], Code.Stmt ref.Extractor)]]]],
      Event.check [Code.Stmt [Code.Err, Code.Op "!=", Code.Nil]]
        [Code.Stmt [Code.Return [Code.Stmt [Code.Qual "github.com/pkg/errors" "Wrapf",
          Code.Call [Code.Stmt [Code.Err], Code.Stmt [Code.Lit ref.GoValueFieldPath]]]]]],
      Event.assign (fieldAccess receiver ref.GoValueFieldPath) "="
        (if ref.IsPointer then
          [Code.Qual referencePath "ToPtrValue",
            Code.Call [Code.Stmt [Code.Id "rsp", Code.Dot "ResolvedValue"]]]
        else [Code.Id "rsp", Code.Dot "ResolvedValue"]),
      Event.assign (fieldAccess receiver ref.GoRefFieldPath) "="
        [Code.Id "rsp", Code.Dot "ResolvedReference"] ]

/-- The declarations expected at the head of the method: `rsp` when some
reference is not a list, `mrsp` when some reference is a list, then `err`. -/
def declEvents (referencePath : String) (refs : List Reference) : List Event :=
  (if refs.any (fun ref => !ref.IsList) then
    [Event.declare [Code.Id "rsp", Code.Qual referencePath "ResolutionResponse"]]
   else []) ++
  (if refs.any (fun ref => ref.IsList) then
    [Event.declare [Code.Id "mrsp", Code.Qual referencePath "MultiResolutionResponse"]]
   else []) ++
  [Event.declare [Code.Err, Code.Error]]

/-- The type references of a Reference hold no statement with an event. -/
def Reference.Quiet (ref : Reference) : Prop :=
  (Code.Stmt ref.RemoteType).events = [] ∧ (Code.Stmt ref.RemoteListType).events = [] ∧
    (Code.Stmt ref.Extractor).events = []

/-- The entries of the request literal passed to a resolution call: the
arguments are the context and `<Request>{<entries>}`. -/
def requestEntries : List Code → List (Code × Code)
  | [_, Code.Stmt [Code.Qual _ _, Code.Values [Code.Dict entries]]] => entries
  | _ => []

/-- The value that a call event passes for the request field `key`. -/
def Event.argument (key : String) : Event → Option Code
  | .call _ _ _ _ args => dictGet (requestEntries args) key
  | _ => none

/-- The event is a call. -/
def Event.isCall : Event → Bool
  | .call _ _ _ _ _ => true
  | _ => false

/-- The event is a declaration. -/
def Event.isDeclare : Event → Bool
  | .declare _ => true
  | _ => false

/-- The object of the named type `Optional`. -/
def optionalObject : Object := .mk "Optional" (.Named optionalType)

/-- An object whose type is not a named type. -/
def plainObject : Object := .mk "text" stringType

/-- The object of the named type `Nested`. -/
def nestedObject : Object := .mk "Nested" (.Named nestedType)

/-! ## Further examples -/

def searchedSingle : ReferenceSearcher :=
  (NewReferenceSearcher bucketComments externalName).found [singleReference]

/-- Go `type Listed struct { Buckets []*Params }`: a slice of pointers to a
struct whose field `Bucket` is marked. -/
def listedType : Named :=
  .mk "Listed" (.Struct [.mk 1 "Buckets" (.Slice (.Pointer (.Named paramsType)))])

/-- Presence and first value of a marker: `none` when the marker is absent,
`some none` when it is present without a value, `some (some v)` when its
first value is `v`. -/
def firstValue (m : Markers) (key : String) : Option (Option String) :=
  (m.lookup key).map List.head?

/-- Two marker sets agree on which of the four field markers are present
and on the first value of each. -/
def Markers.Agree (m1 m2 : Markers) : Prop :=
  firstValue m1 ReferenceTypeMarker = firstValue m2 ReferenceTypeMarker ∧
  firstValue m1 ReferenceExtractorMarker = firstValue m2 ReferenceExtractorMarker ∧
  firstValue m1 ReferenceReferenceFieldNameMarker =
    firstValue m2 ReferenceReferenceFieldNameMarker ∧
  firstValue m1 ReferenceSelectorFieldNameMarker =
    firstValue m2 ReferenceSelectorFieldNameMarker

/-- The comments of `bucketComments` with a second value on each marker. -/
def extraComments : Comments :=
  ⟨fun field =>
    if field.Name = "Bucket" ∨ field.Name = "Buckets" then
      [(ReferenceTypeMarker, ["BucketRef", "Other"])]
    else []⟩

/-- Go `type Middle struct { ForProvider Params }`. -/
def middleType : Named := .mk "Middle" (.Struct [.mk 4 "ForProvider" (.Named paramsType)])

/-- Go `type Deep struct { Spec Middle; Bucket string }`. -/
def deepType : Named :=
  .mk "Deep" (.Struct [.mk 1 "Spec" (.Named middleType), .mk 3 "Bucket" stringType])

def deepReference : Reference :=
  { RemoteType := [Code.Op "&", Code.Id "BucketRef", Code.Values []]
    Extractor := externalName
    RemoteListType := [Code.Op "&", Code.Id "BucketRefList", Code.Values []]
    GoValueFieldPath := "Spec.ForProvider.Bucket"
    GoRefFieldPath := "Spec.ForProvider.BucketRef"
    GoSelectorFieldPath := "Spec.ForProvider.BucketSelector"
    IsList := false
    IsPointer := false }

/-! ## Theorems -/

mutual
theorem search_eq_fold (rs : ReferenceSearcher) (n : Named) (chain : List Var) :
    search rs n (chain.map segment) =
      ((visitNamed n chain).foldlM step rs).map (fun rs1 => (rs1, none)) := by
  match n with
  | .mk _ (.Struct s) =>
    rw [search, visitNamed]
    exact searchLoop_eq_fold rs s chain
  | .mk _ (.Basic _) => simp [search, visitNamed]
  | .mk _ (.Named _) => simp [search, visitNamed]
  | .mk _ (.Pointer _) => simp [search, visitNamed]
  | .mk _ (.Slice _) => simp [search, visitNamed]
theorem searchLoop_eq_fold (rs : ReferenceSearcher) (s : List Var) (chain : List Var) :
    searchLoop rs s (chain.map segment) =
      ((visitFields s chain).foldlM step rs).map (fun rs1 => (rs1, none)) := by
  match s with
  | [] => simp [searchLoop, visitFields]
  | .mk pos name type :: rest =>
    rw [searchLoop, visitFields, searchSwitch_eq_fold rs pos name type chain]
    simp only [List.foldlM_append, List.append_assoc]
    cases h : List.foldlM step rs (visitType (Var.mk pos name type) type chain) with
    | none => simp
    | some rs1 =>
      simp only [Option.map_some', Option.bind_eq_bind, Option.some_bind, List.foldlM_cons,
        step, Var.Type]
      cases h2 : searchMarkers rs1 (Var.mk pos name type) (chain.map segment)
          (isPointerType type) (isSliceType type) with
      | none => simp
      | some rs2 =>
        simp only [Option.some_bind]
        exact searchLoop_eq_fold rs2 rest chain
theorem searchSwitch_eq_fold (rs : ReferenceSearcher) (pos : Nat) (name : String)
    (type : GoType) (chain : List Var) :
    searchSwitch rs name type (chain.map segment) =
      ((visitType (.mk pos name type) type chain).foldlM step rs).map
        (fun rs1 => (rs1, none, isPointerType type, isSliceType type)) := by
  match type with
  | .Named ft =>
    have hseg : chain.map segment ++ [name] =
        (chain ++ [Var.mk pos name (.Named ft)]).map segment := by
      simp [segment, Var.Type, Var.Name]
    rw [searchSwitch, visitType, hseg, search_eq_fold rs ft]
    cases List.foldlM step rs (visitNamed ft (chain ++ [Var.mk pos name (.Named ft)])) <;>
      simp [errors.Wrap, isPointerType, isSliceType]
  | .Pointer (.Named elemType) =>
    have hseg : chain.map segment ++ ["*" ++ name] =
        (chain ++ [Var.mk pos name (.Pointer (.Named elemType))]).map segment := by
      simp [segment, Var.Type, Var.Name]
    rw [searchSwitch, visitType, hseg, search_eq_fold rs elemType]
    cases List.foldlM step rs
        (visitNamed elemType (chain ++ [Var.mk pos name (.Pointer (.Named elemType))])) <;>
      simp [errors.Wrap, isPointerType, isSliceType]
  | .Slice (.Named elemType) =>
    have hseg : chain.map segment ++ ["[]" ++ name] =
        (chain ++ [Var.mk pos name (.Slice (.Named elemType))]).map segment := by
      simp [segment, Var.Type, Var.Name]
    rw [searchSwitch, visitType, hseg, search_eq_fold rs elemType]
    cases List.foldlM step rs
        (visitNamed elemType (chain ++ [Var.mk pos name (.Slice (.Named elemType))])) <;>
      simp [errors.Wrap, isPointerType, isSliceType]
  | .Pointer (.Basic _) => simp [searchSwitch, visitType, isPointerType, isSliceType]
  | .Pointer (.Pointer _) => simp [searchSwitch, visitType, isPointerType, isSliceType]
  | .Pointer (.Slice _) => simp [searchSwitch, visitType, isPointerType, isSliceType]
  | .Pointer (.Struct _) => simp [searchSwitch, visitType, isPointerType, isSliceType]
  | .Slice (.Basic _) => simp [searchSwitch, visitType, isPointerType, isSliceType]
  | .Slice (.Pointer _) => simp [searchSwitch, visitType, isPointerType, isSliceType]
  | .Slice (.Slice _) => simp [searchSwitch, visitType, isPointerType, isSliceType]
  | .Slice (.Struct _) => simp [searchSwitch, visitType, isPointerType, isSliceType]
  | .Basic _ => simp [searchSwitch, visitType, isPointerType, isSliceType]
  | .Struct _ => simp [searchSwitch, visitType, isPointerType, isSliceType]
end


theorem step_some (rs rs1 : ReferenceSearcher) (e : List Var × Var) (h : step rs e = some rs1) :
    rs1 = rs.found (ownReference rs.Comments rs.DefaultExtractor e).toList := by
  unfold step searchMarkers at h
  unfold ownReference ReferenceSearcher.found
  cases hm : Markers.index (rs.Comments.MarkersFor e.2) ReferenceTypeMarker with
  | nil =>
    simp only [hm] at h
    simp only [Option.some.injEq] at h
    simp [← h, hm]
  | cons refType tl =>
    simp only [hm] at h
    cases hr : getRefFieldName (rs.Comments.MarkersFor e.2)
        (strings.Join (e.1.map segment ++ [e.2.Name]) ".") (isSliceType e.2.Type) with
    | none => simp [hr] at h
    | some refPath =>
      cases hs : getSelectorFieldName (rs.Comments.MarkersFor e.2)
          (strings.Join (e.1.map segment ++ [e.2.Name]) ".") with
      | none => simp [hr, hs] at h
      | some selPath =>
        simp only [hr, hs, Option.some.injEq] at h
        simp [← h, hm, hr, hs]

theorem getRefFieldName_isSome (m : Markers) (p : String) (l : Bool)
    (h : m.lookup ReferenceReferenceFieldNameMarker ≠ some []) :
    ∃ s, getRefFieldName m p l = some s := by
  unfold getRefFieldName
  cases hm : m.lookup ReferenceReferenceFieldNameMarker with
  | none => cases l <;> simp
  | some vals =>
    cases vals with
    | nil => exact absurd hm h
    | cons v vs => simp

theorem getSelectorFieldName_isSome (m : Markers) (p : String)
    (h : m.lookup ReferenceSelectorFieldNameMarker ≠ some []) :
    ∃ s, getSelectorFieldName m p = some s := by
  unfold getSelectorFieldName
  cases hm : m.lookup ReferenceSelectorFieldNameMarker with
  | none => simp
  | some vals =>
    cases vals with
    | nil => exact absurd hm h
    | cons v vs => simp

theorem step_total (rs : ReferenceSearcher) (e : List Var × Var)
    (hv : marked rs.Comments e = true →
      (rs.Comments.MarkersFor e.2).lookup ReferenceReferenceFieldNameMarker ≠ some [] ∧
      (rs.Comments.MarkersFor e.2).lookup ReferenceSelectorFieldNameMarker ≠ some []) :
    step rs e = some (rs.found (ownReference rs.Comments rs.DefaultExtractor e).toList) := by
  unfold step searchMarkers ownReference ReferenceSearcher.found
  cases hm : Markers.index (rs.Comments.MarkersFor e.2) ReferenceTypeMarker with
  | nil => simp [hm]
  | cons refType tl =>
    have hmk : marked rs.Comments e = true := by simp [marked, hm]
    obtain ⟨r, hr⟩ := getRefFieldName_isSome (rs.Comments.MarkersFor e.2)
      (strings.Join (e.1.map segment ++ [e.2.Name]) ".") (isSliceType e.2.Type) (hv hmk).1
    obtain ⟨s, hs⟩ := getSelectorFieldName_isSome (rs.Comments.MarkersFor e.2)
      (strings.Join (e.1.map segment ++ [e.2.Name]) ".") (hv hmk).2
    simp [hm, hr, hs]

theorem fold_some (entries : List (List Var × Var)) (rs rs1 : ReferenceSearcher)
    (h : entries.foldlM step rs = some rs1) :
    rs1 = rs.found (entries.filterMap (ownReference rs.Comments rs.DefaultExtractor)) := by
  induction entries generalizing rs with
  | nil =>
    simp only [List.foldlM_nil, Option.pure_def, Option.some.injEq] at h
    simp [← h, ReferenceSearcher.found]
  | cons e rest ih =>
    simp only [List.foldlM_cons, Option.bind_eq_bind] at h
    cases hs : step rs e with
    | none => simp [hs] at h
    | some rs2 =>
      rw [hs, Option.some_bind] at h
      have h2 := step_some rs rs2 e hs
      have h3 := ih rs2 h
      rw [h3, h2]
      cases ho : ownReference rs.Comments rs.DefaultExtractor e <;>
        simp [List.filterMap_cons, ho, ReferenceSearcher.found]

theorem fold_total (entries : List (List Var × Var)) (rs : ReferenceSearcher)
    (hv : ∀ e ∈ entries.filter (marked rs.Comments),
      (rs.Comments.MarkersFor e.2).lookup ReferenceReferenceFieldNameMarker ≠ some [] ∧
      (rs.Comments.MarkersFor e.2).lookup ReferenceSelectorFieldNameMarker ≠ some []) :
    entries.foldlM step rs =
      some (rs.found (entries.filterMap (ownReference rs.Comments rs.DefaultExtractor))) := by
  induction entries generalizing rs with
  | nil => simp [ReferenceSearcher.found]
  | cons e rest ih =>
    have he : marked rs.Comments e = true →
        (rs.Comments.MarkersFor e.2).lookup ReferenceReferenceFieldNameMarker ≠ some [] ∧
        (rs.Comments.MarkersFor e.2).lookup ReferenceSelectorFieldNameMarker ≠ some [] := by
      intro hmk
      exact hv e (by simp [List.mem_filter, hmk])
    have hrest : ∀ x ∈ rest.filter (marked rs.Comments),
        (rs.Comments.MarkersFor x.2).lookup ReferenceReferenceFieldNameMarker ≠ some [] ∧
        (rs.Comments.MarkersFor x.2).lookup ReferenceSelectorFieldNameMarker ≠ some [] := by
      intro x hx
      rw [List.mem_filter] at hx
      exact hv x (by simp [List.mem_filter, hx.1, hx.2])
    simp only [List.foldlM_cons, Option.bind_eq_bind]
    rw [step_total rs e he, Option.some_bind,
      ih (rs.found (ownReference rs.Comments rs.DefaultExtractor e).toList) hrest]
    cases ho : ownReference rs.Comments rs.DefaultExtractor e <;>
      simp [List.filterMap_cons, ho, ReferenceSearcher.found]

theorem Search_eq_fold (rs : ReferenceSearcher) (n : Named) :
    rs.Search n =
      ((visitNamed n []).foldlM step rs).map (fun rs1 => (rs1.refs, none, rs1)) := by
  have h := search_eq_fold rs n []
  simp only [List.map_nil] at h
  unfold ReferenceSearcher.Search
  rw [h]
  cases List.foldlM step rs (visitNamed n []) <;> simp [errors.Wrap]

theorem discover_some (comm : Comments) (d : Statement) (n : Named) (refs : List Reference)
    (h : discover comm d n = some refs) :
    refs = (visitNamed n []).filterMap (ownReference comm d) := by
  unfold discover at h
  rw [Search_eq_fold] at h
  cases hf : List.foldlM step (NewReferenceSearcher comm d) (visitNamed n []) with
  | none => simp [hf] at h
  | some rs1 =>
    have h1 := fold_some _ _ _ hf
    simp only [hf, Option.map_some', Option.some.injEq] at h
    rw [← h, h1]
    simp [ReferenceSearcher.found, NewReferenceSearcher]

theorem Search_total (comm : Comments) (d : Statement) (n : Named)
    (hv : OverridesHaveValues comm n) :
    (NewReferenceSearcher comm d).Search n =
      some ((visitNamed n []).filterMap (ownReference comm d), none,
        (NewReferenceSearcher comm d).found
          ((visitNamed n []).filterMap (ownReference comm d))) := by
  rw [Search_eq_fold, fold_total (visitNamed n []) (NewReferenceSearcher comm d) hv]
  simp [ReferenceSearcher.found, NewReferenceSearcher]

theorem ownReference_nil (comm : Comments) (d : Statement) (e : List Var × Var)
    (hm : (comm.MarkersFor e.2).index ReferenceTypeMarker = []) :
    ownReference comm d e = none := by
  unfold ownReference
  simp only [hm]

theorem ownReference_cons (comm : Comments) (d : Statement) (e : List Var × Var)
    (refType : String) (tl : List String)
    (hm : (comm.MarkersFor e.2).index ReferenceTypeMarker = refType :: tl) :
    ownReference comm d e = some
      { RemoteType := getTypeCodeFromPath refType []
        RemoteListType := getTypeCodeFromPath refType ["List"]
        Extractor :=
          match (comm.MarkersFor e.2).index ReferenceExtractorMarker with
          | [] => d
          | v :: _ => getTypeCodeFromPath v []
        GoValueFieldPath := strings.Join (e.1.map segment ++ [e.2.Name]) "."
        GoRefFieldPath := (getRefFieldName (comm.MarkersFor e.2)
          (strings.Join (e.1.map segment ++ [e.2.Name]) ".") (isSliceType e.2.Type)).getD ""
        GoSelectorFieldPath := (getSelectorFieldName (comm.MarkersFor e.2)
          (strings.Join (e.1.map segment ++ [e.2.Name]) ".")).getD ""
        IsPointer := isPointerType e.2.Type
        IsList := isSliceType e.2.Type } := by
  unfold ownReference
  simp only [hm]

theorem ownReference_some (comm : Comments) (d : Statement) (e : List Var × Var)
    (r : Reference) (h : ownReference comm d e = some r) :
    ∃ refType tl, (comm.MarkersFor e.2).index ReferenceTypeMarker = refType :: tl ∧
      r =
      { RemoteType := getTypeCodeFromPath refType []
        RemoteListType := getTypeCodeFromPath refType ["List"]
        Extractor :=
          match (comm.MarkersFor e.2).index ReferenceExtractorMarker with
          | [] => d
          | v :: _ => getTypeCodeFromPath v []
        GoValueFieldPath := strings.Join (e.1.map segment ++ [e.2.Name]) "."
        GoRefFieldPath := (getRefFieldName (comm.MarkersFor e.2)
          (strings.Join (e.1.map segment ++ [e.2.Name]) ".") (isSliceType e.2.Type)).getD ""
        GoSelectorFieldPath := (getSelectorFieldName (comm.MarkersFor e.2)
          (strings.Join (e.1.map segment ++ [e.2.Name]) ".")).getD ""
        IsPointer := isPointerType e.2.Type
        IsList := isSliceType e.2.Type } := by
  cases hm : (comm.MarkersFor e.2).index ReferenceTypeMarker with
  | nil =>
    rw [ownReference_nil comm d e hm] at h
    cases h
  | cons refType tl =>
    rw [ownReference_cons comm d e refType tl hm, Option.some.injEq] at h
    exact ⟨refType, tl, rfl, h.symm⟩

theorem marked_iff (comm : Comments) (d : Statement) (e : List Var × Var) :
    marked comm e = true ↔ ∃ r, ownReference comm d e = some r := by
  cases hm : (comm.MarkersFor e.2).index ReferenceTypeMarker with
  | nil => simp [marked, hm, ownReference_nil comm d e hm]
  | cons refType tl => simp [marked, hm, ownReference_cons comm d e refType tl hm]

theorem forall₂_marked (comm : Comments) (d : Statement)
    (P : List Var × Var → Reference → Prop)
    (hP : ∀ e r, ownReference comm d e = some r → P e r)
    (entries : List (List Var × Var)) :
    List.Forall₂ P (entries.filter (marked comm))
      (entries.filterMap (ownReference comm d)) := by
  induction entries with
  | nil => simp
  | cons e rest ih =>
    cases ho : ownReference comm d e with
    | none =>
      have hm : marked comm e = false := by
        cases hmk : marked comm e with
        | false => rfl
        | true =>
          obtain ⟨r, hr⟩ := (marked_iff comm d e).1 hmk
          rw [ho] at hr
          cases hr
      simp [List.filter_cons, hm, List.filterMap_cons, ho, ih]
    | some r =>
      have hm : marked comm e = true := (marked_iff comm d e).2 ⟨r, ho⟩
      simp only [List.filter_cons, hm, List.filterMap_cons, ho, if_true]
      exact List.Forall₂.cons (hP e r ho) ih

theorem discover_forall₂ (comm : Comments) (d : Statement) (n : Named)
    (refs : List Reference) (P : List Var × Var → Reference → Prop)
    (hP : ∀ e r, ownReference comm d e = some r → P e r)
    (h : discover comm d n = some refs) :
    List.Forall₂ P (markedFields comm n) refs := by
  rw [discover_some comm d n refs h]
  exact forall₂_marked comm d P hP _

/-- C1 (amended): the discovered references correspond one to one, in
order, to the reached fields that carry a reference-type value, and the
GoValueFieldPath of each is the "."-joined list of the segments of the
enclosing fields followed by the bare name of the marked field, where the
segment of an enclosing field is its name for a field of a named type, "*"
and its name for a pointer field, "[]" and its name for a slice field. -/
theorem valueFieldPath_segments (comm : Comments) (d : Statement) (n : Named)
    (refs : List Reference) (h : discover comm d n = some refs) :
    List.Forall₂
      (fun e r => r.GoValueFieldPath = strings.Join (e.1.map segment ++ [e.2.Name]) ".")
      (markedFields comm n) refs := by
  refine discover_forall₂ comm d n refs _ ?_ h
  intro e r hr
  obtain ⟨refType, tl, _, hr⟩ := ownReference_some comm d e r hr
  rw [hr]

theorem valueFieldPath_segments_witness :
    discover bucketComments externalName outerType = some [outerReference] ∧
    List.Forall₂
      (fun e r => r.GoValueFieldPath = strings.Join (e.1.map segment ++ [e.2.Name]) ".")
      (markedFields bucketComments outerType) [outerReference] :=
  ⟨rfl, valueFieldPath_segments bucketComments externalName outerType [outerReference] rfl⟩

/-- C1 (counterexample): for `Outer { Spec *Params }` with a marked field
`Bucket` in `Params`, the traversed field names are `Spec` and `Bucket`, but
the GoValueFieldPath is "*Spec.Bucket", not "Spec.Bucket". -/
theorem valueFieldPath_shape_counterexample :
    (discover bucketComments externalName outerType).map
        (List.map (fun r => r.GoValueFieldPath)) = some ["*Spec.Bucket"] ∧
    "*Spec.Bucket" ≠ strings.Join ["Spec", "Bucket"] "." := by
  constructor
  · rfl
  · decide

mutual
theorem refsOf_eq_visit (comm : Comments) (d : Statement) (n : Named) (chain : List Var) :
    refsOf comm d n chain = (visitNamed n chain).filterMap (ownReference comm d) := by
  match n with
  | .mk _ (.Struct s) =>
    rw [refsOf, visitNamed]
    exact refsOfFields_eq_visit comm d s chain
  | .mk _ (.Basic _) => simp [refsOf, visitNamed]
  | .mk _ (.Named _) => simp [refsOf, visitNamed]
  | .mk _ (.Pointer _) => simp [refsOf, visitNamed]
  | .mk _ (.Slice _) => simp [refsOf, visitNamed]
theorem refsOfFields_eq_visit (comm : Comments) (d : Statement) (s : List Var)
    (chain : List Var) :
    refsOfFields comm d s chain = (visitFields s chain).filterMap (ownReference comm d) := by
  match s with
  | [] => simp [refsOfFields, visitFields]
  | .mk pos name type :: rest =>
    rw [refsOfFields, visitFields, refsOfElem_eq_visit comm d (.mk pos name type) type chain,
      refsOfFields_eq_visit comm d rest chain]
    simp only [List.filterMap_append, List.filterMap_cons, List.filterMap_nil]
    cases ownReference comm d (chain, Var.mk pos name type) <;> simp
theorem refsOfElem_eq_visit (comm : Comments) (d : Statement) (v : Var) (type : GoType)
    (chain : List Var) :
    refsOfElem comm d v type chain = (visitType v type chain).filterMap (ownReference comm d) := by
  match type with
  | .Named ft =>
    rw [refsOfElem, visitType]
    exact refsOf_eq_visit comm d ft _
  | .Pointer (.Named elemType) =>
    rw [refsOfElem, visitType]
    exact refsOf_eq_visit comm d elemType _
  | .Slice (.Named elemType) =>
    rw [refsOfElem, visitType]
    exact refsOf_eq_visit comm d elemType _
  | .Pointer (.Basic _) => simp [refsOfElem, visitType]
  | .Pointer (.Pointer _) => simp [refsOfElem, visitType]
  | .Pointer (.Slice _) => simp [refsOfElem, visitType]
  | .Pointer (.Struct _) => simp [refsOfElem, visitType]
  | .Slice (.Basic _) => simp [refsOfElem, visitType]
  | .Slice (.Pointer _) => simp [refsOfElem, visitType]
  | .Slice (.Slice _) => simp [refsOfElem, visitType]
  | .Slice (.Struct _) => simp [refsOfElem, visitType]
  | .Basic _ => simp [refsOfElem, visitType]
  | .Struct _ => simp [refsOfElem, visitType]
end

theorem bucketComments_nested_values : OverridesHaveValues bucketComments nestedType := by
  unfold OverridesHaveValues
  decide

/-- C2: on a newly constructed searcher, when every reached field with a
reference-type value has a value for each refFieldName or selectorFieldName
marker it carries, `Search` returns exactly the list `refsOf` of the type
(for each field in declaration order the references nested in its type,
then the field's own reference) and a nil error; that list has exactly one
Reference for each reached field carrying a reference-type value, in
traversal order. -/
theorem Search_returns_refsOf (comm : Comments) (d : Statement) (n : Named)
    (hv : OverridesHaveValues comm n) :
    (NewReferenceSearcher comm d).Search n =
      some (refsOf comm d n [], none, (NewReferenceSearcher comm d).found (refsOf comm d n [])) ∧
    List.Forall₂ (fun e r => ownReference comm d e = some r)
      (markedFields comm n) (refsOf comm d n []) := by
  rw [refsOf_eq_visit]
  exact ⟨Search_total comm d n hv, forall₂_marked comm d _ (fun _ _ h => h) _⟩

theorem Search_returns_refsOf_witness :
    OverridesHaveValues bucketComments nestedType ∧
    refsOf bucketComments externalName nestedType [] = [nestedSpecReference, singleReference] ∧
    ((NewReferenceSearcher bucketComments externalName).Search nestedType =
      some (refsOf bucketComments externalName nestedType [], none,
        (NewReferenceSearcher bucketComments externalName).found
          (refsOf bucketComments externalName nestedType [])) ∧
    List.Forall₂ (fun e r => ownReference bucketComments externalName e = some r)
      (markedFields bucketComments nestedType)
      (refsOf bucketComments externalName nestedType [])) :=
  ⟨bucketComments_nested_values, rfl,
    Search_returns_refsOf bucketComments externalName nestedType bucketComments_nested_values⟩

theorem getRefFieldName_absent (m : Markers) (p : String) (l : Bool)
    (h : m.lookup ReferenceReferenceFieldNameMarker = none) :
    getRefFieldName m p l = some (p ++ (if l then "Refs" else "Ref")) := by
  unfold getRefFieldName
  rw [h]
  cases l <;> simp

theorem getSelectorFieldName_absent (m : Markers) (p : String)
    (h : m.lookup ReferenceSelectorFieldNameMarker = none) :
    getSelectorFieldName m p = some (p ++ "Selector") := by
  unfold getSelectorFieldName
  rw [h]

/-- C3: the discovered references correspond one to one, in order, to the
reached fields carrying a reference-type value, and when such a field has no
refFieldName marker the GoRefFieldPath of its Reference is the
GoValueFieldPath followed by "Ref" when IsList is false and by "Refs" when
IsList is true. -/
theorem refFieldPath_default (comm : Comments) (d : Statement) (n : Named)
    (refs : List Reference) (h : discover comm d n = some refs) :
    List.Forall₂
      (fun e r =>
        (comm.MarkersFor e.2).lookup ReferenceReferenceFieldNameMarker = none →
          (r.IsList = false → r.GoRefFieldPath = r.GoValueFieldPath ++ "Ref") ∧
          (r.IsList = true → r.GoRefFieldPath = r.GoValueFieldPath ++ "Refs"))
      (markedFields comm n) refs := by
  refine discover_forall₂ comm d n refs _ ?_ h
  intro e r hr hno
  obtain ⟨refType, tl, _, hr⟩ := ownReference_some comm d e r hr
  rw [hr]
  simp only [getRefFieldName_absent _ _ _ hno, Option.getD_some]
  constructor
  · intro hl
    simp [hl]
  · intro hl
    simp [hl]

theorem refFieldPath_default_witness :
    (discover bucketComments externalName manyType = some [manyReference] ∧
    manyReference.GoRefFieldPath = "BucketsRefs" ∧
    List.Forall₂
      (fun e r =>
        (bucketComments.MarkersFor e.2).lookup ReferenceReferenceFieldNameMarker = none →
          (r.IsList = false → r.GoRefFieldPath = r.GoValueFieldPath ++ "Ref") ∧
          (r.IsList = true → r.GoRefFieldPath = r.GoValueFieldPath ++ "Refs"))
      (markedFields bucketComments manyType) [manyReference]) ∧
    (discover bucketComments externalName singleType = some [singleReference] ∧
    singleReference.GoRefFieldPath = "BucketRef" ∧
    List.Forall₂
      (fun e r =>
        (bucketComments.MarkersFor e.2).lookup ReferenceReferenceFieldNameMarker = none →
          (r.IsList = false → r.GoRefFieldPath = r.GoValueFieldPath ++ "Ref") ∧
          (r.IsList = true → r.GoRefFieldPath = r.GoValueFieldPath ++ "Refs"))
      (markedFields bucketComments singleType) [singleReference]) :=
  ⟨⟨rfl, rfl, refFieldPath_default bucketComments externalName manyType [manyReference] rfl⟩,
    ⟨rfl, rfl,
      refFieldPath_default bucketComments externalName singleType [singleReference] rfl⟩⟩

/-- C5: the discovered references correspond one to one, in order, to the
reached fields carrying a reference-type value, and when such a field has no
selectorFieldName marker the GoSelectorFieldPath of its Reference is the
GoValueFieldPath followed by "Selector", whatever the type of the field. -/
theorem selectorFieldPath_default (comm : Comments) (d : Statement) (n : Named)
    (refs : List Reference) (h : discover comm d n = some refs) :
    List.Forall₂
      (fun e r =>
        (comm.MarkersFor e.2).lookup ReferenceSelectorFieldNameMarker = none →
          r.GoSelectorFieldPath = r.GoValueFieldPath ++ "Selector")
      (markedFields comm n) refs := by
  refine discover_forall₂ comm d n refs _ ?_ h
  intro e r hr hno
  obtain ⟨refType, tl, _, hr⟩ := ownReference_some comm d e r hr
  rw [hr]
  simp only [getSelectorFieldName_absent _ _ hno, Option.getD_some]

theorem selectorFieldPath_default_witness :
    discover bucketComments externalName optionalType = some [optionalReference] ∧
    optionalReference.GoSelectorFieldPath = "BucketSelector" ∧
    List.Forall₂
      (fun e r =>
        (bucketComments.MarkersFor e.2).lookup ReferenceSelectorFieldNameMarker = none →
          r.GoSelectorFieldPath = r.GoValueFieldPath ++ "Selector")
      (markedFields bucketComments optionalType) [optionalReference] :=
  ⟨rfl, rfl,
    selectorFieldPath_default bucketComments externalName optionalType [optionalReference] rfl⟩

theorem isListTypeOf_getTypeCodeFromPath (p : String) :
    IsListTypeOf (getTypeCodeFromPath p []) (getTypeCodeFromPath p ["List"]) := by
  unfold getTypeCodeFromPath IsListTypeOf
  by_cases h : (strings.Split p '.').length = 1
  · left
    refine ⟨p, ?_, ?_⟩
    · simp [h, strings.Join]
    · simp [h, strings.Join]
  · right
    refine ⟨strings.TrimSuffix p ("." ++ (strings.Split p '.').getLastD ""),
      (strings.Split p '.').getLastD "", ?_, ?_⟩
    · simp [h, strings.Join]
    · simp [h, strings.Join]

/-- C6: the discovered references correspond one to one, in order, to the
reached fields carrying a reference-type value; RemoteType is the type
reference of the marker's first value, and RemoteListType names the same
package as RemoteType with the identifier of RemoteType followed by "List",
for a value with or without dots. -/
theorem remoteListType_of_remoteType (comm : Comments) (d : Statement) (n : Named)
    (refs : List Reference) (h : discover comm d n = some refs) :
    List.Forall₂
      (fun e r =>
        (∃ v vs, (comm.MarkersFor e.2).index ReferenceTypeMarker = v :: vs ∧
          r.RemoteType = getTypeCodeFromPath v []) ∧
        IsListTypeOf r.RemoteType r.RemoteListType)
      (markedFields comm n) refs := by
  refine discover_forall₂ comm d n refs _ ?_ h
  intro e r hr
  obtain ⟨refType, tl, hm, hr⟩ := ownReference_some comm d e r hr
  rw [hr]
  exact ⟨⟨refType, tl, hm, rfl⟩, isListTypeOf_getTypeCodeFromPath refType⟩

theorem remoteListType_of_remoteType_witness :
    discover qualifiedComments externalName singleType = some [qualifiedReference] ∧
    List.Forall₂
      (fun e r =>
        (∃ v vs, (qualifiedComments.MarkersFor e.2).index ReferenceTypeMarker = v :: vs ∧
          r.RemoteType = getTypeCodeFromPath v []) ∧
        IsListTypeOf r.RemoteType r.RemoteListType)
      (markedFields qualifiedComments singleType) [qualifiedReference] :=
  ⟨rfl,
    remoteListType_of_remoteType qualifiedComments externalName singleType
      [qualifiedReference] rfl⟩

/-- C9: the discovered references correspond one to one, in order, to the
reached fields carrying a reference-type value; IsList is true exactly when
the declared type of the field is a slice, IsPointer exactly when it is a
pointer, and no Reference has both. -/
theorem isList_isPointer_of_type (comm : Comments) (d : Statement) (n : Named)
    (refs : List Reference) (h : discover comm d n = some refs) :
    List.Forall₂
      (fun e r =>
        (r.IsList = true ↔ ∃ elem, e.2.Type = GoType.Slice elem) ∧
        (r.IsPointer = true ↔ ∃ elem, e.2.Type = GoType.Pointer elem) ∧
        ¬ (r.IsList = true ∧ r.IsPointer = true))
      (markedFields comm n) refs := by
  refine discover_forall₂ comm d n refs _ ?_ h
  intro e r hr
  obtain ⟨refType, tl, _, hr⟩ := ownReference_some comm d e r hr
  rw [hr]
  cases e.2.Type <;> simp [isSliceType, isPointerType]

theorem isList_isPointer_of_type_witness :
    (discover bucketComments externalName singleType = some [singleReference] ∧
    singleReference.IsList = false ∧ singleReference.IsPointer = false ∧
    List.Forall₂
      (fun e r =>
        (r.IsList = true ↔ ∃ elem, e.2.Type = GoType.Slice elem) ∧
        (r.IsPointer = true ↔ ∃ elem, e.2.Type = GoType.Pointer elem) ∧
        ¬ (r.IsList = true ∧ r.IsPointer = true))
      (markedFields bucketComments singleType) [singleReference]) ∧
    (discover bucketComments externalName manyType = some [manyReference] ∧
    manyReference.IsList = true ∧ manyReference.IsPointer = false ∧
    List.Forall₂
      (fun e r =>
        (r.IsList = true ↔ ∃ elem, e.2.Type = GoType.Slice elem) ∧
        (r.IsPointer = true ↔ ∃ elem, e.2.Type = GoType.Pointer elem) ∧
        ¬ (r.IsList = true ∧ r.IsPointer = true))
      (markedFields bucketComments manyType) [manyReference]) :=
  ⟨⟨rfl, rfl, rfl,
      isList_isPointer_of_type bucketComments externalName singleType [singleReference] rfl⟩,
    ⟨rfl, rfl, rfl,
      isList_isPointer_of_type bucketComments externalName manyType [manyReference] rfl⟩⟩

/-- C10: the discovered references correspond one to one, in order, to the
reached fields carrying a reference-type value; the Extractor is the
searcher's default extractor when the field has no extractor marker value,
and otherwise the type reference that `getTypeCodeFromPath` (the function
that parses the reference type) gives for the first extractor value. -/
theorem extractor_of_marker (comm : Comments) (d : Statement) (n : Named)
    (refs : List Reference) (h : discover comm d n = some refs) :
    List.Forall₂
      (fun e r =>
        ((comm.MarkersFor e.2).index ReferenceExtractorMarker = [] → r.Extractor = d) ∧
        (∀ v vs, (comm.MarkersFor e.2).index ReferenceExtractorMarker = v :: vs →
          r.Extractor = getTypeCodeFromPath v []) ∧
        (∃ t ts, (comm.MarkersFor e.2).index ReferenceTypeMarker = t :: ts ∧
          r.RemoteType = getTypeCodeFromPath t []))
      (markedFields comm n) refs := by
  refine discover_forall₂ comm d n refs _ ?_ h
  intro e r hr
  obtain ⟨refType, tl, hm, hr⟩ := ownReference_some comm d e r hr
  rw [hr]
  refine ⟨?_, ?_, ⟨refType, tl, hm, rfl⟩⟩
  · intro hx
    simp only [hx]
  · intro v vs hx
    simp only [hx]

theorem extractor_of_marker_witness :
    discover qualifiedComments externalName singleType = some [qualifiedReference] ∧
    qualifiedReference.Extractor =
      [Code.Op "&", Code.Qual "example.org/apis" "BucketARN", Code.Values []] ∧
    List.Forall₂
      (fun e r =>
        ((qualifiedComments.MarkersFor e.2).index ReferenceExtractorMarker = [] →
          r.Extractor = externalName) ∧
        (∀ v vs, (qualifiedComments.MarkersFor e.2).index ReferenceExtractorMarker = v :: vs →
          r.Extractor = getTypeCodeFromPath v []) ∧
        (∃ t ts, (qualifiedComments.MarkersFor e.2).index ReferenceTypeMarker = t :: ts ∧
          r.RemoteType = getTypeCodeFromPath t []))
      (markedFields qualifiedComments singleType) [qualifiedReference] :=
  ⟨rfl, rfl,
    extractor_of_marker qualifiedComments externalName singleType [qualifiedReference] rfl⟩

theorem step_unmarked (rs : ReferenceSearcher) (e : List Var × Var)
    (h : (rs.Comments.MarkersFor e.2).index ReferenceTypeMarker = []) :
    step rs e = some rs := by
  unfold step searchMarkers
  simp only [h]

theorem fold_unmarked (entries : List (List Var × Var)) (rs : ReferenceSearcher)
    (h : ∀ e ∈ entries, (rs.Comments.MarkersFor e.2).index ReferenceTypeMarker = []) :
    entries.foldlM step rs = some rs := by
  induction entries with
  | nil => rfl
  | cons e rest ih =>
    simp only [List.foldlM_cons, Option.bind_eq_bind]
    rw [step_unmarked rs e (h e (List.mem_cons_self e rest)), Option.some_bind]
    exact ih (fun x hx => h x (List.mem_cons_of_mem e hx))

/-- C8: when no field reached by the traversal carries a reference-type
marker (in particular when the underlying type is not a struct, where no
field is reached), `Search` on a newly constructed searcher returns the
empty list and a nil error, and leaves the searcher as it was. -/
theorem Search_without_markers (comm : Comments) (d : Statement) (n : Named)
    (h : ∀ e ∈ visitNamed n [], (comm.MarkersFor e.2).lookup ReferenceTypeMarker = none) :
    (NewReferenceSearcher comm d).Search n = some ([], none, NewReferenceSearcher comm d) := by
  rw [Search_eq_fold, fold_unmarked]
  · rfl
  · intro e he
    show (comm.MarkersFor e.2).index ReferenceTypeMarker = []
    unfold Markers.index
    rw [h e he]
    rfl

theorem Search_without_markers_witness :
    ((∀ e ∈ visitNamed nestedType [],
      (noComments.MarkersFor e.2).lookup ReferenceTypeMarker = none) ∧
    (NewReferenceSearcher noComments externalName).Search nestedType =
      some ([], none, NewReferenceSearcher noComments externalName)) ∧
    ((∀ e ∈ visitNamed nameType [],
      (bucketComments.MarkersFor e.2).lookup ReferenceTypeMarker = none) ∧
    (NewReferenceSearcher bucketComments externalName).Search nameType =
      some ([], none, NewReferenceSearcher bucketComments externalName)) :=
  ⟨⟨fun _ _ => rfl,
      Search_without_markers noComments externalName nestedType (fun _ _ => rfl)⟩,
    ⟨fun _ h => absurd h (List.not_mem_nil _),
      Search_without_markers bucketComments externalName nameType
        (fun _ h => absurd h (List.not_mem_nil _))⟩⟩

theorem splitChars_spec (sep : Char) (l : List Char) :
    ∃ ws w, splitChars sep l = ws ++ [w] ∧ sep ∉ w ∧
      (sep ∉ l → ws = [] ∧ w = l) ∧
      (sep ∈ l → ws ≠ [] ∧ ∃ pre, l = pre ++ sep :: w) := by
  induction l with
  | nil => exact ⟨[], [], rfl, by simp, by simp, by simp⟩
  | cons c cs ih =>
    obtain ⟨ws, w, hs, hw, hno, hyes⟩ := ih
    by_cases hc : c = sep
    · subst hc
      refine ⟨[] :: ws, w, by simp [splitChars, hs], hw, by simp, ?_⟩
      intro _
      refine ⟨by simp, ?_⟩
      by_cases hin : c ∈ cs
      · obtain ⟨_, pre, hpre⟩ := hyes hin
        exact ⟨c :: pre, by rw [hpre]; rfl⟩
      · obtain ⟨_, hwl⟩ := hno hin
        exact ⟨[], by simp [hwl]⟩
    · cases ws with
      | nil =>
        have hnin : sep ∉ cs := by
          intro hin
          exact (hyes hin).1 rfl
        obtain ⟨_, hwl⟩ := hno hnin
        refine ⟨[], c :: w, by simp [splitChars, hc, hs], ?_, ?_, ?_⟩
        · simp [hw, Ne.symm hc]
        · intro _
          simp [hwl]
        · intro hin
          simp [Ne.symm hc, hnin] at hin
      | cons w0 ws0 =>
        have hin : sep ∈ cs := by
          by_contra hnin
          have := (hno hnin).1
          simp at this
        obtain ⟨_, pre, hpre⟩ := hyes hin
        refine ⟨(c :: w0) :: ws0, w, by simp [splitChars, hc, hs], hw, ?_, ?_⟩
        · intro hnin
          simp [hin] at hnin
        · intro _
          exact ⟨by simp, c :: pre, by rw [hpre]; rfl⟩

/-- C7: for a path with at least one ".", `getTypeCodeFromPath` yields the
qualified identifier whose name is the text after the final dot (it has no
dot) and whose package is the text before the final dot, so that package,
".", name make up the path; for a path without a dot it yields the
unqualified identifier that is the path. -/
theorem getTypeCodeFromPath_grammar (p : String) :
    ('.' ∈ p.data → ∃ pkg name,
      getTypeCodeFromPath p [] = [Code.Op "&", Code.Qual pkg name, Code.Values []] ∧
      '.' ∉ name.data ∧ pkg ++ "." ++ name = p) ∧
    ('.' ∉ p.data → getTypeCodeFromPath p [] = [Code.Op "&", Code.Id p, Code.Values []]) := by
  obtain ⟨ws, w, hs, hw, hno, hyes⟩ := splitChars_spec '.' p.data
  constructor
  · intro hin
    obtain ⟨hne, pre, hpre⟩ := hyes hin
    have hlen : ¬ ((strings.Split p '.').length = 1) := by
      unfold strings.Split
      rw [hs]
      cases ws with
      | nil => exact absurd rfl hne
      | cons a b => simp
    have hlast : (strings.Split p '.').getLastD "" = String.mk w := by
      unfold strings.Split
      rw [hs, List.map_append, List.map_cons, List.map_nil, List.getLastD_concat]
    have hsuf : ("." ++ String.mk w).data = '.' :: w := rfl
    have htrim : strings.TrimSuffix p ("." ++ String.mk w) = String.mk pre := by
      unfold strings.TrimSuffix
      rw [hsuf, hpre]
      have h1 : ('.' :: w).isSuffixOf (pre ++ '.' :: w) = true := by
        rw [List.isSuffixOf_iff_suffix]
        exact List.suffix_append _ _
      rw [if_pos h1]
      congr 1
      apply List.take_left'
      simp
    refine ⟨String.mk pre, String.mk w, ?_, hw, ?_⟩
    · unfold getTypeCodeFromPath
      simp only [hlen, if_false, hlast, htrim, strings.Join, String.append_empty]
    · apply String.ext
      simp [hpre]
  · intro hnin
    obtain ⟨hws, hwl⟩ := hno hnin
    have hlen : (strings.Split p '.').length = 1 := by
      unfold strings.Split
      rw [hs, hws]
      rfl
    unfold getTypeCodeFromPath
    simp only [hlen, if_true, strings.Join, String.append_empty]

theorem getTypeCodeFromPath_grammar_witness :
    getTypeCodeFromPath "example.org/apis.Bucket" [] =
      [Code.Op "&", Code.Qual "example.org/apis" "Bucket", Code.Values []] ∧
    getTypeCodeFromPath "Bucket" [] = [Code.Op "&", Code.Id "Bucket", Code.Values []] ∧
    (('.' ∈ "example.org/apis.Bucket".data → ∃ pkg name,
      getTypeCodeFromPath "example.org/apis.Bucket" [] =
        [Code.Op "&", Code.Qual pkg name, Code.Values []] ∧
      '.' ∉ name.data ∧ pkg ++ "." ++ name = "example.org/apis.Bucket") ∧
    ('.' ∉ "example.org/apis.Bucket".data →
      getTypeCodeFromPath "example.org/apis.Bucket" [] =
        [Code.Op "&", Code.Id "example.org/apis.Bucket", Code.Values []])) :=
  ⟨rfl, rfl, getTypeCodeFromPath_grammar "example.org/apis.Bucket"⟩

/-- C4 (evaluation at the failing input): for the top-level field `Bucket`
with refFieldName value `BucketReference` and selectorFieldName value
`BucketSel`, the code yields ".BucketReference" and ".BucketSel", with a
leading "." (an empty first segment), not the bare override; for the nested
field `Spec.Bucket` it yields "Spec.BucketReference" and "Spec.BucketSel". -/
theorem override_top_level_leading_dot :
    (discover overrideComments externalName nestedType).map
        (List.map (fun r => (r.GoValueFieldPath, r.GoRefFieldPath, r.GoSelectorFieldPath))) =
      some [("Spec.Bucket", "Spec.BucketReference", "Spec.BucketSel"),
            ("Bucket", ".BucketReference", ".BucketSel")] ∧
    ".BucketReference" ≠ "BucketReference" ∧ ".BucketSel" ≠ "BucketSel" := by
  refine ⟨rfl, ?_, ?_⟩ <;> decide

theorem Search_some (rs : ReferenceSearcher) (n : Named) (refs : List Reference) (err : error)
    (rs1 : ReferenceSearcher) (h : rs.Search n = some (refs, err, rs1)) :
    err = none ∧ refs = rs1.refs ∧
      rs1 = rs.found ((visitNamed n []).filterMap (ownReference rs.Comments rs.DefaultExtractor)) := by
  rw [Search_eq_fold] at h
  cases hf : List.foldlM step rs (visitNamed n []) with
  | none => simp [hf] at h
  | some rs2 =>
    have h1 := fold_some _ _ _ hf
    simp only [hf, Option.map_some', Option.some.injEq, Prod.mk.injEq] at h
    obtain ⟨h2, h3, h4⟩ := h
    subst h4
    exact ⟨h3.symm, h2.symm, h1⟩

/-- C11 (amended): the list that `Search(B)` returns after an earlier
`Search(A)` on the same searcher is the list returned by that `Search(A)`
followed by the list that `Search(B)` returns on a newly constructed
searcher with the same comments and default extractor. -/
theorem Search_after_Search (rs : ReferenceSearcher) (A B : Named)
    (la lb lnew : List Reference) (ea eb enew : error) (rs1 rs2 rs3 : ReferenceSearcher)
    (hA : rs.Search A = some (la, ea, rs1))
    (hB : rs1.Search B = some (lb, eb, rs2))
    (hN : (NewReferenceSearcher rs.Comments rs.DefaultExtractor).Search B =
      some (lnew, enew, rs3)) :
    lb = la ++ lnew := by
  obtain ⟨_, hla, hrs1⟩ := Search_some rs A la ea rs1 hA
  obtain ⟨_, hlb, hrs2⟩ := Search_some rs1 B lb eb rs2 hB
  obtain ⟨_, hln, hrs3⟩ := Search_some _ B lnew enew rs3 hN
  rw [hlb, hrs2, hln, hrs3, hla, hrs1]
  simp [ReferenceSearcher.found, NewReferenceSearcher]

theorem Search_after_Search_witness :
    (NewReferenceSearcher bucketComments externalName).Search singleType =
      some ([singleReference], none, searchedSingle) ∧
    searchedSingle.Search manyType =
      some ([singleReference, manyReference], none, searchedSingle.found [manyReference]) ∧
    (NewReferenceSearcher bucketComments externalName).Search manyType =
      some ([manyReference], none,
        (NewReferenceSearcher bucketComments externalName).found [manyReference]) ∧
    [singleReference, manyReference] = [singleReference] ++ [manyReference] :=
  ⟨rfl, rfl, rfl,
    Search_after_Search (NewReferenceSearcher bucketComments externalName) singleType manyType
      [singleReference] [singleReference, manyReference] [manyReference] none none none
      searchedSingle (searchedSingle.found [manyReference])
      ((NewReferenceSearcher bucketComments externalName).found [manyReference]) rfl rfl rfl⟩

/-- C11 (counterexample): after `Search(Single)` on a new searcher, the
same searcher returns two references for `Many`, the one of `Single` first,
while a new searcher returns only the one of `Many`. -/
theorem Search_reuse_counterexample :
    ((NewReferenceSearcher bucketComments externalName).Search singleType).map
        (fun out => out.2.2) = some searchedSingle ∧
    (searchedSingle.Search manyType).map (fun out => out.1) =
      some [singleReference, manyReference] ∧
    discover bucketComments externalName manyType = some [manyReference] ∧
    [singleReference, manyReference] ≠ [manyReference] := by
  refine ⟨rfl, rfl, rfl, ?_⟩
  intro h
  have := congrArg List.length h
  simp at this

mutual
theorem search_err_nil (rs : ReferenceSearcher) (n : Named) (fields : List String)
    (rs1 : ReferenceSearcher) (err : error) (h : search rs n fields = some (rs1, err)) :
    err = none := by
  match n with
  | .mk _ (.Struct s) =>
    rw [search] at h
    exact searchLoop_err_nil rs s fields rs1 err h
  | .mk _ (.Basic _) => simp [search] at h; exact h.2.symm
  | .mk _ (.Named _) => simp [search] at h; exact h.2.symm
  | .mk _ (.Pointer _) => simp [search] at h; exact h.2.symm
  | .mk _ (.Slice _) => simp [search] at h; exact h.2.symm
theorem searchLoop_err_nil (rs : ReferenceSearcher) (s : List Var) (fields : List String)
    (rs1 : ReferenceSearcher) (err : error) (h : searchLoop rs s fields = some (rs1, err)) :
    err = none := by
  match s with
  | [] => simp [searchLoop] at h; exact h.2.symm
  | .mk pos name type :: rest =>
    rw [searchLoop] at h
    cases hsw : searchSwitch rs name type fields with
    | none => simp [hsw] at h
    | some out =>
      obtain ⟨rs2, e2, p, l⟩ := out
      have he2 := searchSwitch_err_nil rs name type fields rs2 e2 p l hsw
      subst he2
      simp only [hsw] at h
      cases hm : searchMarkers rs2 (Var.mk pos name type) fields p l with
      | none => simp [hm] at h
      | some rs3 =>
        simp only [hm] at h
        exact searchLoop_err_nil rs3 rest fields rs1 err h
theorem searchSwitch_err_nil (rs : ReferenceSearcher) (name : String) (type : GoType)
    (fields : List String) (rs1 : ReferenceSearcher) (err : error) (p l : Bool)
    (h : searchSwitch rs name type fields = some (rs1, err, p, l)) : err = none := by
  match type with
  | .Named ft =>
    rw [searchSwitch] at h
    cases hs : search rs ft (fields ++ [name]) with
    | none => simp [hs] at h
    | some out =>
      obtain ⟨rs2, e2⟩ := out
      have := search_err_nil rs ft _ rs2 e2 hs
      subst this
      simp [hs, errors.Wrap] at h
      exact h.2.1.symm
  | .Pointer (.Named elemType) =>
    rw [searchSwitch] at h
    cases hs : search rs elemType (fields ++ ["*" ++ name]) with
    | none => simp [hs] at h
    | some out =>
      obtain ⟨rs2, e2⟩ := out
      have := search_err_nil rs elemType _ rs2 e2 hs
      subst this
      simp [hs, errors.Wrap] at h
      exact h.2.1.symm
  | .Slice (.Named elemType) =>
    rw [searchSwitch] at h
    cases hs : search rs elemType (fields ++ ["[]" ++ name]) with
    | none => simp [hs] at h
    | some out =>
      obtain ⟨rs2, e2⟩ := out
      have := search_err_nil rs elemType _ rs2 e2 hs
      subst this
      simp [hs, errors.Wrap] at h
      exact h.2.1.symm
  | .Pointer (.Basic _) => simp [searchSwitch] at h; exact h.2.1.symm
  | .Pointer (.Pointer _) => simp [searchSwitch] at h; exact h.2.1.symm
  | .Pointer (.Slice _) => simp [searchSwitch] at h; exact h.2.1.symm
  | .Pointer (.Struct _) => simp [searchSwitch] at h; exact h.2.1.symm
  | .Slice (.Basic _) => simp [searchSwitch] at h; exact h.2.1.symm
  | .Slice (.Pointer _) => simp [searchSwitch] at h; exact h.2.1.symm
  | .Slice (.Slice _) => simp [searchSwitch] at h; exact h.2.1.symm
  | .Slice (.Struct _) => simp [searchSwitch] at h; exact h.2.1.symm
  | .Basic _ => simp [searchSwitch] at h; exact h.2.1.symm
  | .Struct _ => simp [searchSwitch] at h; exact h.2.1.symm
end

/-- C20: `search` never returns a non-nil error, whatever the fields passed
down, and so neither does `Search`; and when every reached marked field has
a value for each override marker it carries, `search` and `Search` do
return (with the nil error). -/
theorem search_returns_nil_error (rs : ReferenceSearcher) (n : Named) :
    (∀ fields rs1 err, search rs n fields = some (rs1, err) → err = none) ∧
    (∀ refs err rs1, rs.Search n = some (refs, err, rs1) → err = none) ∧
    (OverridesHaveValues rs.Comments n →
      ∃ rs1, search rs n [] = some (rs1, none) ∧ rs.Search n = some (rs1.refs, none, rs1)) := by
  refine ⟨fun fields rs1 err h => search_err_nil rs n fields rs1 err h, ?_, ?_⟩
  · intro refs err rs1 h
    exact (Search_some rs n refs err rs1 h).1
  · intro hv
    have hs := search_eq_fold rs n []
    have hS := Search_eq_fold rs n
    rw [fold_total (visitNamed n []) rs hv] at hS
    simp only [List.map_nil] at hs
    rw [fold_total (visitNamed n []) rs hv] at hs
    exact ⟨_, hs, hS⟩

theorem search_returns_nil_error_witness :
    OverridesHaveValues bucketComments nestedType ∧
    (NewReferenceSearcher bucketComments externalName).Search nestedType =
      some ([nestedSpecReference, singleReference], none,
        (NewReferenceSearcher bucketComments externalName).found
          [nestedSpecReference, singleReference]) ∧
    ((∀ fields rs1 err,
        search (NewReferenceSearcher bucketComments externalName) nestedType fields =
          some (rs1, err) → err = none) ∧
    (∀ refs err rs1,
        (NewReferenceSearcher bucketComments externalName).Search nestedType =
          some (refs, err, rs1) → err = none) ∧
    (OverridesHaveValues (NewReferenceSearcher bucketComments externalName).Comments nestedType →
      ∃ rs1, search (NewReferenceSearcher bucketComments externalName) nestedType [] =
          some (rs1, none) ∧
        (NewReferenceSearcher bucketComments externalName).Search nestedType =
          some (rs1.refs, none, rs1))) :=
  ⟨bucketComments_nested_values, rfl,
    search_returns_nil_error (NewReferenceSearcher bucketComments externalName) nestedType⟩

mutual
theorem visitNamed_chain (n : Named) (chain : List Var) (e : List Var × Var)
    (he : e ∈ visitNamed n chain) (v : Var) (hv : v ∈ e.1) :
    v ∈ chain ∨ ∃ m, v.Type = .Named m ∨ v.Type = .Pointer (.Named m) ∨
      v.Type = .Slice (.Named m) := by
  match n with
  | .mk _ (.Struct s) =>
    rw [visitNamed] at he
    exact visitFields_chain s chain e he v hv
  | .mk _ (.Basic _) => simp [visitNamed] at he
  | .mk _ (.Named _) => simp [visitNamed] at he
  | .mk _ (.Pointer _) => simp [visitNamed] at he
  | .mk _ (.Slice _) => simp [visitNamed] at he
theorem visitFields_chain (s : List Var) (chain : List Var) (e : List Var × Var)
    (he : e ∈ visitFields s chain) (v : Var) (hv : v ∈ e.1) :
    v ∈ chain ∨ ∃ m, v.Type = .Named m ∨ v.Type = .Pointer (.Named m) ∨
      v.Type = .Slice (.Named m) := by
  match s with
  | [] => simp [visitFields] at he
  | .mk pos name type :: rest =>
    rw [visitFields, List.mem_append, List.mem_append] at he
    rcases he with (he | he) | he
    · exact visitType_chain pos name type chain e he v hv
    · simp only [List.mem_singleton] at he
      subst he
      exact Or.inl hv
    · exact visitFields_chain rest chain e he v hv
theorem visitType_chain (pos : Nat) (name : String) (type : GoType) (chain : List Var)
    (e : List Var × Var) (he : e ∈ visitType (.mk pos name type) type chain) (v : Var)
    (hv : v ∈ e.1) :
    v ∈ chain ∨ ∃ m, v.Type = .Named m ∨ v.Type = .Pointer (.Named m) ∨
      v.Type = .Slice (.Named m) := by
  match type with
  | .Named ft =>
    rw [visitType] at he
    rcases visitNamed_chain ft _ e he v hv with h | h
    · rw [List.mem_append, List.mem_singleton] at h
      rcases h with h | h
      · exact Or.inl h
      · exact Or.inr ⟨ft, Or.inl (by rw [h]; rfl)⟩
    · exact Or.inr h
  | .Pointer (.Named elemType) =>
    rw [visitType] at he
    rcases visitNamed_chain elemType _ e he v hv with h | h
    · rw [List.mem_append, List.mem_singleton] at h
      rcases h with h | h
      · exact Or.inl h
      · exact Or.inr ⟨elemType, Or.inr (Or.inl (by rw [h]; rfl))⟩
    · exact Or.inr h
  | .Slice (.Named elemType) =>
    rw [visitType] at he
    rcases visitNamed_chain elemType _ e he v hv with h | h
    · rw [List.mem_append, List.mem_singleton] at h
      rcases h with h | h
      · exact Or.inl h
      · exact Or.inr ⟨elemType, Or.inr (Or.inr (by rw [h]; rfl))⟩
    · exact Or.inr h
  | .Pointer (.Basic _) => simp [visitType] at he
  | .Pointer (.Pointer _) => simp [visitType] at he
  | .Pointer (.Slice _) => simp [visitType] at he
  | .Pointer (.Struct _) => simp [visitType] at he
  | .Slice (.Basic _) => simp [visitType] at he
  | .Slice (.Pointer _) => simp [visitType] at he
  | .Slice (.Slice _) => simp [visitType] at he
  | .Slice (.Struct _) => simp [visitType] at he
  | .Basic _ => simp [visitType] at he
  | .Struct _ => simp [visitType] at he
end

theorem forall₂_filter_mem {α β : Type} (P : α → β → Prop) (p : α → Bool) (f : α → Option β)
    (Q : α → Prop) (l : List α) (hQ : ∀ a ∈ l, Q a)
    (h : List.Forall₂ P (l.filter p) (l.filterMap f)) :
    List.Forall₂ (fun a b => Q a ∧ P a b) (l.filter p) (l.filterMap f) := by
  have hmem : ∀ a ∈ l.filter p, Q a := fun a ha => hQ a (List.mem_filter.1 ha).1
  generalize l.filter p = xs at h hmem
  generalize l.filterMap f = ys at h
  induction h with
  | nil => exact List.Forall₂.nil
  | cons hab _ ih =>
    exact List.Forall₂.cons ⟨hmem _ (List.mem_cons_self _ _), hab⟩
      (ih (fun a ha => hmem a (List.mem_cons_of_mem _ ha)))

/-- C19: on a field whose type is a slice of pointers the type switch makes
no recursive call: it leaves the searcher unchanged, yields no error and
sets `isList`. Accordingly, when `Search` returns, its error is nil, no
discovered Reference has such a field among its enclosing fields, and a
marked field of that type has a Reference of its own with IsList true and
IsPointer false. -/
theorem slice_of_pointers_not_traversed (comm : Comments) (d : Statement) (n : Named)
    (refs : List Reference) (err : error) (rs1 : ReferenceSearcher)
    (h : (NewReferenceSearcher comm d).Search n = some (refs, err, rs1)) :
    (∀ (rs : ReferenceSearcher) (name : String) (t : GoType) (fields : List String),
      searchSwitch rs name (.Slice (.Pointer t)) fields = some (rs, none, false, true)) ∧
    err = none ∧
    List.Forall₂
      (fun e r =>
        (∀ v ∈ e.1, ∀ t, v.Type ≠ GoType.Slice (GoType.Pointer t)) ∧
        (∀ t, e.2.Type = GoType.Slice (GoType.Pointer t) →
          r.IsList = true ∧ r.IsPointer = false ∧
          r.GoValueFieldPath = strings.Join (e.1.map segment ++ [e.2.Name]) "."))
      (markedFields comm n) refs := by
  refine ⟨fun rs name t fields => by simp [searchSwitch], ?_, ?_⟩
  · exact (Search_some _ n refs err rs1 h).1
  · have hd : discover comm d n = some refs := by
      unfold discover
      rw [h]
      rfl
    rw [discover_some comm d n refs hd]
    unfold markedFields
    refine forall₂_filter_mem _ _ _ _ _ ?_ (forall₂_marked comm d _ ?_ _)
    · intro e he v hv t ht
      rcases visitNamed_chain n [] e he v hv with h1 | ⟨m, h1 | h1 | h1⟩
      · simp at h1
      · rw [h1] at ht; cases ht
      · rw [h1] at ht; cases ht
      · rw [h1] at ht; cases ht
    · intro e r hr t ht
      obtain ⟨refType, tl, _, hr⟩ := ownReference_some comm d e r hr
      rw [hr]
      simp [ht, isSliceType, isPointerType]

theorem slice_of_pointers_not_traversed_witness :
    (NewReferenceSearcher bucketComments externalName).Search listedType =
      some ([manyReference], none,
        (NewReferenceSearcher bucketComments externalName).found [manyReference]) ∧
    ((∀ (rs : ReferenceSearcher) (name : String) (t : GoType) (fields : List String),
      searchSwitch rs name (.Slice (.Pointer t)) fields = some (rs, none, false, true)) ∧
    (none : error) = none ∧
    List.Forall₂
      (fun e r =>
        (∀ v ∈ e.1, ∀ t, v.Type ≠ GoType.Slice (GoType.Pointer t)) ∧
        (∀ t, e.2.Type = GoType.Slice (GoType.Pointer t) →
          r.IsList = true ∧ r.IsPointer = false ∧
          r.GoValueFieldPath = strings.Join (e.1.map segment ++ [e.2.Name]) "."))
      (markedFields bucketComments listedType) [manyReference]) :=
  ⟨rfl,
    slice_of_pointers_not_traversed bucketComments externalName listedType [manyReference] none
      ((NewReferenceSearcher bucketComments externalName).found [manyReference]) rfl⟩

theorem index_agree (m1 m2 : Markers) (key : String)
    (h : firstValue m1 key = firstValue m2 key) :
    (m1.index key = [] ∧ m2.index key = []) ∨
    ∃ v t1 t2, m1.index key = v :: t1 ∧ m2.index key = v :: t2 := by
  unfold firstValue at h
  unfold Markers.index
  cases h1 : m1.lookup key with
  | none =>
    cases h2 : m2.lookup key with
    | none => simp
    | some l2 => simp [h1, h2] at h
  | some l1 =>
    cases h2 : m2.lookup key with
    | none => simp [h1, h2] at h
    | some l2 =>
      simp only [h1, h2, Option.map_some', Option.some.injEq] at h
      cases l1 with
      | nil =>
        cases l2 with
        | nil => simp
        | cons b t2 => simp at h
      | cons a t1 =>
        cases l2 with
        | nil => simp at h
        | cons b t2 =>
          simp only [List.head?_cons, Option.some.injEq] at h
          subst h
          exact Or.inr ⟨a, t1, t2, rfl, rfl⟩

theorem getRefFieldName_agree (m1 m2 : Markers) (p : String) (l : Bool)
    (h : firstValue m1 ReferenceReferenceFieldNameMarker =
      firstValue m2 ReferenceReferenceFieldNameMarker) :
    getRefFieldName m1 p l = getRefFieldName m2 p l := by
  unfold firstValue at h
  unfold getRefFieldName
  cases h1 : m1.lookup ReferenceReferenceFieldNameMarker with
  | none =>
    cases h2 : m2.lookup ReferenceReferenceFieldNameMarker with
    | none => rfl
    | some l2 => simp [h1, h2] at h
  | some l1 =>
    cases h2 : m2.lookup ReferenceReferenceFieldNameMarker with
    | none => simp [h1, h2] at h
    | some l2 =>
      simp only [h1, h2, Option.map_some', Option.some.injEq] at h
      cases l1 with
      | nil =>
        cases l2 with
        | nil => rfl
        | cons b t2 => simp at h
      | cons a t1 =>
        cases l2 with
        | nil => simp at h
        | cons b t2 =>
          simp only [List.head?_cons, Option.some.injEq] at h
          subst h
          rfl

theorem getSelectorFieldName_agree (m1 m2 : Markers) (p : String)
    (h : firstValue m1 ReferenceSelectorFieldNameMarker =
      firstValue m2 ReferenceSelectorFieldNameMarker) :
    getSelectorFieldName m1 p = getSelectorFieldName m2 p := by
  unfold firstValue at h
  unfold getSelectorFieldName
  cases h1 : m1.lookup ReferenceSelectorFieldNameMarker with
  | none =>
    cases h2 : m2.lookup ReferenceSelectorFieldNameMarker with
    | none => rfl
    | some l2 => simp [h1, h2] at h
  | some l1 =>
    cases h2 : m2.lookup ReferenceSelectorFieldNameMarker with
    | none => simp [h1, h2] at h
    | some l2 =>
      simp only [h1, h2, Option.map_some', Option.some.injEq] at h
      cases l1 with
      | nil =>
        cases l2 with
        | nil => rfl
        | cons b t2 => simp at h
      | cons a t1 =>
        cases l2 with
        | nil => simp at h
        | cons b t2 =>
          simp only [List.head?_cons, Option.some.injEq] at h
          subst h
          rfl

theorem searchMarkers_agree (rs1 rs2 : ReferenceSearcher) (field : Var) (fields : List String)
    (p l : Bool) (hrefs : rs1.refs = rs2.refs)
    (hd : rs1.DefaultExtractor = rs2.DefaultExtractor)
    (ha : (rs1.Comments.MarkersFor field).Agree (rs2.Comments.MarkersFor field)) :
    (searchMarkers rs1 field fields p l = none ∧ searchMarkers rs2 field fields p l = none) ∨
    ∃ a b, searchMarkers rs1 field fields p l = some a ∧
      searchMarkers rs2 field fields p l = some b ∧ a.refs = b.refs ∧
      a.DefaultExtractor = b.DefaultExtractor ∧ a.Comments = rs1.Comments ∧
      b.Comments = rs2.Comments := by
  obtain ⟨ht, he, hr, hs⟩ := ha
  have hR := getRefFieldName_agree _ _ (strings.Join (fields ++ [field.Name]) ".") l hr
  have hS := getSelectorFieldName_agree _ _ (strings.Join (fields ++ [field.Name]) ".") hs
  unfold searchMarkers
  rcases index_agree _ _ _ ht with ⟨h1, h2⟩ | ⟨v, t1, t2, h1, h2⟩
  · right
    exact ⟨rs1, rs2, by simp [h1], by simp [h2], hrefs, hd, rfl, rfl⟩
  · simp only [h1, h2]
    rw [hR, hS]
    cases getRefFieldName (rs2.Comments.MarkersFor field)
        (strings.Join (fields ++ [field.Name]) ".") l with
    | none => left; simp
    | some refPath =>
      cases getSelectorFieldName (rs2.Comments.MarkersFor field)
          (strings.Join (fields ++ [field.Name]) ".") with
      | none => left; simp
      | some selPath =>
        right
        refine ⟨_, _, rfl, rfl, ?_, hd, rfl, rfl⟩
        rcases index_agree _ _ _ he with ⟨h3, h4⟩ | ⟨w, u1, u2, h3, h4⟩
        · simp [h3, h4, hrefs, hd]
        · simp [h3, h4, hrefs]

theorem fold_agree (entries : List (List Var × Var)) (rs1 rs2 : ReferenceSearcher)
    (hrefs : rs1.refs = rs2.refs) (hd : rs1.DefaultExtractor = rs2.DefaultExtractor)
    (ha : ∀ field, (rs1.Comments.MarkersFor field).Agree (rs2.Comments.MarkersFor field)) :
    (entries.foldlM step rs1).map (fun rs => rs.refs) =
      (entries.foldlM step rs2).map (fun rs => rs.refs) := by
  induction entries generalizing rs1 rs2 with
  | nil => simp [hrefs]
  | cons e rest ih =>
    simp only [List.foldlM_cons, Option.bind_eq_bind]
    rcases searchMarkers_agree rs1 rs2 e.2 (e.1.map segment) (isPointerType e.2.Type)
      (isSliceType e.2.Type) hrefs hd (ha e.2) with ⟨h1, h2⟩ | ⟨a, b, h1, h2, h3, h4, h5, h6⟩
    · simp [step, h1, h2]
    · simp only [step, h1, h2, Option.some_bind]
      exact ih a b h3 h4 (fun field => by rw [h5, h6]; exact ha field)

/-- C15: when two marker assignments agree, on every field, on which of the
four field markers are present and on the first value of each, `Search` on a
newly constructed searcher gives the same outcome for both: the same list
of References (or a panic for both), whatever the further values are. -/
theorem Search_first_values_only (comm1 comm2 : Comments) (d : Statement) (n : Named)
    (ha : ∀ field, (comm1.MarkersFor field).Agree (comm2.MarkersFor field)) :
    discover comm1 d n = discover comm2 d n := by
  unfold discover
  rw [Search_eq_fold, Search_eq_fold]
  have h := fold_agree (visitNamed n []) (NewReferenceSearcher comm1 d)
    (NewReferenceSearcher comm2 d) rfl rfl ha
  simp only [Option.map_map]
  exact h

theorem extraComments_agree (field : Var) :
    (bucketComments.MarkersFor field).Agree (extraComments.MarkersFor field) := by
  unfold bucketComments extraComments
  by_cases h : field.Name = "Bucket" ∨ field.Name = "Buckets"
  · simp only [h, if_true]
    unfold Markers.Agree
    decide
  · simp only [h, if_false]
    unfold Markers.Agree
    decide

theorem Search_first_values_only_witness :
    (∀ field, (bucketComments.MarkersFor field).Agree (extraComments.MarkersFor field)) ∧
    discover extraComments externalName nestedType =
      some [nestedSpecReference, singleReference] ∧
    discover bucketComments externalName nestedType =
      discover extraComments externalName nestedType :=
  ⟨extraComments_agree, rfl,
    Search_first_values_only bucketComments extraComments externalName nestedType
      extraComments_agree⟩

theorem visitFields_append (s1 s2 : List Var) (chain : List Var) :
    visitFields (s1 ++ s2) chain = visitFields s1 chain ++ visitFields s2 chain := by
  induction s1 with
  | nil => simp [visitFields]
  | cons v rest ih =>
    obtain ⟨pos, name, type⟩ := v
    rw [List.cons_append, visitFields, visitFields, ih]
    simp only [List.append_assoc]

theorem visitFields_split (s1 s2 : List Var) (pos : Nat) (name : String) (type : GoType)
    (chain : List Var) :
    visitFields (s1 ++ [Var.mk pos name type] ++ s2) chain =
      visitFields s1 chain ++ visitType (Var.mk pos name type) type chain
        ++ [(chain, Var.mk pos name type)] ++ visitFields s2 chain := by
  rw [visitFields_append, visitFields_append, visitFields, visitFields]
  simp only [List.append_assoc, List.append_nil]

theorem ownReference_marked (comm : Comments) (d : Statement) (e : List Var × Var)
    (hm : (comm.MarkersFor e.2).index ReferenceTypeMarker ≠ []) :
    ∃ r, ownReference comm d e = some r ∧
      r.GoValueFieldPath = strings.Join (e.1.map segment ++ [e.2.Name]) "." := by
  cases hi : (comm.MarkersFor e.2).index ReferenceTypeMarker with
  | nil => exact absurd hi hm
  | cons refType tl =>
    exact ⟨_, ownReference_cons comm d e refType tl hi, rfl⟩

/-- C14: for a type A with a field `a` of the plain named struct type B
whose field F carries a reference-type value, `Search` on a new searcher
discovers the Reference of F with GoValueFieldPath `a.F`, and it stands
before all references of the fields of A declared after `a`; with one more
plain level (field `b` of B of struct type C holding F) the path is
`a.b.F`, again before all references of the later fields of A. -/
theorem nested_plain_path (comm : Comments) (d : Statement) :
    (∀ (nameA nameB a : String) (pa : Nat) (before after beforeB afterB : List Var) (F : Var)
        (refs : List Reference),
      (comm.MarkersFor F).index ReferenceTypeMarker ≠ [] →
      discover comm d (.mk nameA (.Struct (before ++
        [Var.mk pa a (.Named (.mk nameB (.Struct (beforeB ++ [F] ++ afterB))))] ++ after))) =
          some refs →
      ∃ l1 r l2, refs = l1 ++ [r] ++ l2 ++
          (visitFields after []).filterMap (ownReference comm d) ∧
        ownReference comm d
          ([Var.mk pa a (.Named (.mk nameB (.Struct (beforeB ++ [F] ++ afterB))))], F) =
            some r ∧
        r.GoValueFieldPath = a ++ "." ++ F.Name) ∧
    (∀ (nameA nameB nameC a b : String) (pa pb : Nat)
        (before after beforeB afterB beforeC afterC : List Var) (F : Var)
        (refs : List Reference),
      (comm.MarkersFor F).index ReferenceTypeMarker ≠ [] →
      discover comm d (.mk nameA (.Struct (before ++
        [Var.mk pa a (.Named (.mk nameB (.Struct (beforeB ++
          [Var.mk pb b (.Named (.mk nameC (.Struct (beforeC ++ [F] ++ afterC))))] ++
            afterB))))] ++ after))) = some refs →
      ∃ l1 r l2, refs = l1 ++ [r] ++ l2 ++
          (visitFields after []).filterMap (ownReference comm d) ∧
        r.GoValueFieldPath = a ++ "." ++ b ++ "." ++ F.Name) := by
  constructor
  · intro nameA nameB a pa before after beforeB afterB F refs hm h
    obtain ⟨pf, nf, tf⟩ := F
    obtain ⟨r, hr, hp⟩ := ownReference_marked comm d
      ([Var.mk pa a (.Named (.mk nameB (.Struct (beforeB ++ [Var.mk pf nf tf] ++ afterB))))],
        Var.mk pf nf tf) hm
    have hpath : r.GoValueFieldPath = a ++ "." ++ (Var.mk pf nf tf).Name := by
      rw [hp]
      simp [segment, Var.Type, Var.Name, strings.Join]
    rw [discover_some comm d _ refs h, visitNamed, visitFields_split, visitType, visitNamed,
      visitFields_split]
    simp only [List.nil_append]
    generalize Var.mk pa a (.Named (.mk nameB (.Struct (beforeB ++ [Var.mk pf nf tf] ++ afterB))))
      = va at hr ⊢
    refine ⟨(visitFields before []).filterMap (ownReference comm d) ++
        (visitFields beforeB [va]).filterMap (ownReference comm d) ++
        (visitType (Var.mk pf nf tf) tf [va]).filterMap (ownReference comm d), r,
      (visitFields afterB [va]).filterMap (ownReference comm d) ++
        (ownReference comm d ([], va)).toList, ?_, hr, hpath⟩
    cases ho : ownReference comm d ([], va) <;>
      simp [List.filterMap_append, List.filterMap_cons, hr, ho, List.append_assoc]
  · intro nameA nameB nameC a b pa pb before after beforeB afterB beforeC afterC F refs hm h
    obtain ⟨pf, nf, tf⟩ := F
    obtain ⟨r, hr, hp⟩ := ownReference_marked comm d
      ([Var.mk pa a (.Named (.mk nameB (.Struct (beforeB ++
          [Var.mk pb b (.Named (.mk nameC (.Struct (beforeC ++ [Var.mk pf nf tf] ++ afterC))))]
            ++ afterB)))),
        Var.mk pb b (.Named (.mk nameC (.Struct (beforeC ++ [Var.mk pf nf tf] ++ afterC))))],
        Var.mk pf nf tf) hm
    have hpath : r.GoValueFieldPath = a ++ "." ++ b ++ "." ++ (Var.mk pf nf tf).Name := by
      rw [hp]
      simp [segment, Var.Type, Var.Name, strings.Join, String.append_assoc]
    rw [discover_some comm d _ refs h, visitNamed, visitFields_split, visitType, visitNamed,
      visitFields_split, visitType, visitNamed, visitFields_split]
    simp only [List.nil_append, List.singleton_append]
    generalize Var.mk pb b (.Named (.mk nameC (.Struct (beforeC ++ [Var.mk pf nf tf] ++ afterC))))
      = vb at hr ⊢
    generalize Var.mk pa a (.Named (.mk nameB (.Struct (beforeB ++ [vb] ++ afterB))))
      = va at hr ⊢
    refine ⟨(visitFields before []).filterMap (ownReference comm d) ++
        (visitFields beforeB [va]).filterMap (ownReference comm d) ++
        (visitFields beforeC [va, vb]).filterMap (ownReference comm d) ++
        (visitType (Var.mk pf nf tf) tf [va, vb]).filterMap (ownReference comm d), r,
      (visitFields afterC [va, vb]).filterMap (ownReference comm d) ++
        (ownReference comm d ([va], vb)).toList ++
        (visitFields afterB [va]).filterMap (ownReference comm d) ++
        (ownReference comm d ([], va)).toList, ?_, hpath⟩
    cases ho : ownReference comm d ([], va) <;>
      cases ho2 : ownReference comm d ([va], vb) <;>
        simp [List.filterMap_append, List.filterMap_cons, hr, ho, ho2, List.append_assoc]

theorem nested_plain_path_witness :
    (discover bucketComments externalName nestedType =
      some [nestedSpecReference, singleReference] ∧
    nestedSpecReference.GoValueFieldPath = "Spec.Bucket" ∧
    ∃ l1 r l2, [nestedSpecReference, singleReference] = l1 ++ [r] ++ l2 ++
        (visitFields [Var.mk 3 "Bucket" stringType] []).filterMap
          (ownReference bucketComments externalName) ∧
      ownReference bucketComments externalName
        ([Var.mk 1 "Spec" (.Named (.mk "Params"
          (.Struct ([] ++ [Var.mk 2 "Bucket" stringType] ++ []))))],
          Var.mk 2 "Bucket" stringType) = some r ∧
      r.GoValueFieldPath = "Spec" ++ "." ++ (Var.mk 2 "Bucket" stringType).Name) ∧
    (discover bucketComments externalName deepType = some [deepReference, singleReference] ∧
    deepReference.GoValueFieldPath = "Spec.ForProvider.Bucket" ∧
    ∃ l1 r l2, [deepReference, singleReference] = l1 ++ [r] ++ l2 ++
        (visitFields [Var.mk 3 "Bucket" stringType] []).filterMap
          (ownReference bucketComments externalName) ∧
      r.GoValueFieldPath =
        "Spec" ++ "." ++ "ForProvider" ++ "." ++ (Var.mk 2 "Bucket" stringType).Name) :=
  ⟨⟨rfl, rfl,
      (nested_plain_path bucketComments externalName).1 "Nested" "Params" "Spec" 1 []
        [Var.mk 3 "Bucket" stringType] [] [] (Var.mk 2 "Bucket" stringType)
        [nestedSpecReference, singleReference] (by decide) rfl⟩,
    ⟨rfl, rfl,
      (nested_plain_path bucketComments externalName).2 "Deep" "Middle" "Params" "Spec"
        "ForProvider" 1 4 [] [Var.mk 3 "Bucket" stringType] [] [] [] []
        (Var.mk 2 "Bucket" stringType) [deepReference, singleReference] (by decide) rfl⟩⟩

theorem dotPath_eq (receiver path : String) :
    dotPath receiver path = fieldAccess receiver path := by
  unfold dotPath fieldAccess
  have h : ∀ (l : List String) (s : Statement),
      l.foldl (fun s fieldName => s ++ [Code.Dot fieldName]) s = s ++ l.map Code.Dot := by
    intro l
    induction l with
    | nil => intro s; simp
    | cons a rest ih => intro s; simp [ih]
  rw [h]
  rfl

theorem events_stmt_cons (a : Code) (l : List Code) :
    (Code.Stmt (a :: l)).events = (classify (a :: l)).toList ++ (a.events ++ eventsOf l) := by
  unfold Code.events eventsOf
  rw [Code.statements, statementsOf, List.filterMap_cons, List.filterMap_append]
  cases classify (a :: l) <;> rfl

theorem eventsOf_nil : eventsOf [] = [] := rfl

theorem eventsOf_cons (a : Code) (l : List Code) :
    eventsOf (a :: l) = a.events ++ eventsOf l := by
  unfold Code.events eventsOf
  rw [statementsOf, List.filterMap_append]

theorem events_call (l : List Code) : (Code.Call l).events = eventsOf l := by
  unfold Code.events eventsOf
  rw [Code.statements]

theorem events_values (l : List Code) : (Code.Values l).events = eventsOf l := by
  unfold Code.events eventsOf
  rw [Code.statements]

theorem events_params (l : List Code) : (Code.Params l).events = eventsOf l := by
  unfold Code.events eventsOf
  rw [Code.statements]

theorem events_listOf (l : List Code) : (Code.ListOf l).events = eventsOf l := by
  unfold Code.events eventsOf
  rw [Code.statements]

theorem events_if (l : List Code) : (Code.If l).events = eventsOf l := by
  unfold Code.events eventsOf
  rw [Code.statements]

theorem events_block (l : List Code) : (Code.Block l).events = eventsOf l := by
  unfold Code.events eventsOf
  rw [Code.statements]

theorem events_return (l : List Code) : (Code.Return l).events = eventsOf l := by
  unfold Code.events eventsOf
  rw [Code.statements]

theorem events_dict_nil : (Code.Dict []).events = [] := by
  unfold Code.events
  rw [Code.statements, statementsOfDict]
  rfl

theorem events_dict_cons (k v : Code) (rest : List (Code × Code)) :
    (Code.Dict ((k, v) :: rest)).events = k.events ++ (v.events ++ (Code.Dict rest).events) := by
  unfold Code.events
  rw [Code.statements, statementsOfDict, Code.statements]
  simp [List.filterMap_append]

theorem events_id (x : String) : (Code.Id x).events = [] := rfl
theorem events_op (x : String) : (Code.Op x).events = [] := rfl
theorem events_qual (x y : String) : (Code.Qual x y).events = [] := rfl
theorem events_dot (x : String) : (Code.Dot x).events = [] := rfl
theorem events_lit (x : String) : (Code.Lit x).events = [] := rfl
theorem events_err : Code.Err.events = [] := rfl
theorem events_nilCode : Code.Nil.events = [] := rfl
theorem events_line : Code.Line.events = [] := rfl
theorem events_var : Code.Var.events = [] := rfl
theorem events_error : Code.Error.events = [] := rfl
theorem events_func : Code.Func.events = [] := rfl
theorem events_comment (x : String) : (Code.Comment x).events = [] := rfl

theorem eventsOf_dots (l : List String) : eventsOf (l.map Code.Dot) = [] := by
  induction l with
  | nil => rfl
  | cons a rest ih => rw [List.map_cons, eventsOf_cons, ih, events_dot]; rfl

theorem events_fieldAccess (receiver path : String) :
    (Code.Stmt (fieldAccess receiver path)).events = [] := by
  unfold fieldAccess
  rw [events_stmt_cons, eventsOf_dots, events_id]
  rfl

theorem events_getTypeCodeFromPath (p : String) (sfx : List String) :
    (Code.Stmt (getTypeCodeFromPath p sfx)).events = [] := by
  unfold getTypeCodeFromPath
  by_cases h : (strings.Split p '.').length = 1
  · simp only [h, if_true, events_stmt_cons, eventsOf_cons, eventsOf_nil, events_op, events_id,
      events_values, classify]
    rfl
  · simp only [h, if_false, events_stmt_cons, eventsOf_cons, eventsOf_nil, events_op,
      events_qual, events_values, classify]
    rfl

theorem events_defaultExtractor (rp : String) :
    (Code.Stmt (defaultExtractor rp)).events = [] := by
  unfold defaultExtractor
  simp only [events_stmt_cons, eventsOf_cons, eventsOf_nil, events_qual, events_call, classify]
  rfl

theorem events_stmt (s : Statement) :
    (Code.Stmt s).events = (classify s).toList ++ eventsOf s := by
  cases s with
  | nil => rfl
  | cons a l => rw [events_stmt_cons, eventsOf_cons]

theorem events_resolverCall (receiver rp : String) (ref : Reference) (hq : ref.Quiet) :
    events (resolverCall receiver rp ref) = stepEvents receiver rp ref := by
  obtain ⟨h1, h2, h3⟩ := hq
  have a1 := events_fieldAccess receiver ref.GoValueFieldPath
  have a2 := events_fieldAccess receiver ref.GoRefFieldPath
  have a3 := events_fieldAccess receiver ref.GoSelectorFieldPath
  unfold events resolverCall stepEvents
  cases hl : ref.IsList <;> cases hp : ref.IsPointer <;>
  · simp only [dotPath_eq, Clone, List.cons_append, List.nil_append, Bool.false_eq_true,
      if_false, if_true]
    simp only [events_stmt_cons, eventsOf_cons, eventsOf_nil, events_call, events_values,
      events_listOf, events_if, events_block, events_return, events_dict_nil, events_dict_cons,
      events_id, events_op, events_qual, events_dot, events_lit, events_err, events_nilCode,
      events_line, classify, a1, a2, a3, h1, h2, h3, Option.toList, List.append_nil,
      List.nil_append, List.cons_append]

theorem resolverLoop_eq (receiver rp : String) (refs : List Reference)
    (st : Bool × Bool × Statement) :
    resolverLoop receiver rp refs st =
      (st.1 || refs.any (fun ref => ref.IsList),
       st.2.1 || refs.any (fun ref => !ref.IsList),
       st.2.2 ++ refs.map (fun ref => Code.Stmt (resolverCall receiver rp ref))) := by
  unfold resolverLoop
  induction refs generalizing st with
  | nil => simp
  | cons r rest ih =>
    rw [List.foldl_cons, ih]
    cases hl : r.IsList <;> simp [hl]

theorem classify_steps (receiver rp : String) (refs : List Reference) :
    classify (refs.map (fun ref => Code.Stmt (resolverCall receiver rp ref))) = none := by
  cases refs with
  | nil => rfl
  | cons r rest =>
    cases rest with
    | nil => rfl
    | cons r2 rest2 => rfl

theorem eventsOf_steps (receiver rp : String) (refs : List Reference)
    (hq : ∀ r ∈ refs, r.Quiet) :
    eventsOf (refs.map (fun ref => Code.Stmt (resolverCall receiver rp ref))) =
      (refs.map (stepEvents receiver rp)).flatten := by
  induction refs with
  | nil => rfl
  | cons r rest ih =>
    rw [List.map_cons, eventsOf_cons, List.map_cons, List.flatten_cons,
      ih (fun x hx => hq x (List.mem_cons_of_mem r hx))]
    have := events_resolverCall receiver rp r (hq r (List.mem_cons_self r rest))
    unfold events at this
    rw [this]

theorem discover_quiet (comm : Comments) (rp : String) (n : Named) (refs : List Reference)
    (h : discover comm (defaultExtractor rp) n = some refs) :
    ∀ r ∈ refs, r.Quiet ∧ ¬ (r.IsList = true ∧ r.IsPointer = true) := by
  intro r hr
  rw [discover_some comm _ n refs h, List.mem_filterMap] at hr
  obtain ⟨e, _, he⟩ := hr
  obtain ⟨refType, tl, _, hr⟩ := ownReference_some comm _ e r he
  rw [hr]
  refine ⟨⟨events_getTypeCodeFromPath _ _, events_getTypeCodeFromPath _ _, ?_⟩, ?_⟩
  · show (Code.Stmt (match (comm.MarkersFor e.2).index ReferenceExtractorMarker with
        | [] => defaultExtractor rp
        | v :: _ => getTypeCodeFromPath v [])).events = []
    cases (comm.MarkersFor e.2).index ReferenceExtractorMarker with
    | nil => exact events_defaultExtractor rp
    | cons v vs => exact events_getTypeCodeFromPath _ _
  · cases e.2.Type <;> simp [isSliceType, isPointerType]

theorem discover_Search (comm : Comments) (d : Statement) (n : Named) (refs : List Reference)
    (h : discover comm d n = some refs) :
    ∃ rs1, (NewReferenceSearcher comm d).Search n = some (refs, none, rs1) := by
  unfold discover at h
  cases hS : (NewReferenceSearcher comm d).Search n with
  | none => simp [hS] at h
  | some out =>
    obtain ⟨l, err, rs1⟩ := out
    simp only [hS, Option.map_some', Option.some.injEq] at h
    obtain ⟨he, _, _⟩ := Search_some _ n l err rs1 hS
    subst he
    subst h
    exact ⟨rs1, rfl⟩

theorem events_method (comm : Comments) (receiver clientPath rp : String) (f : File)
    (name : String) (n : Named) (refs : List Reference)
    (h : discover comm (defaultExtractor rp) n = some refs) (hne : refs ≠ []) :
    ∃ m, NewResolveReferences comm receiver clientPath rp f (.mk name (.Named n)) =
        some (f ++ [[Code.Comment ("ResolveReferences of this " ++ name ++ ".")], m]) ∧
      events m = declEvents rp refs ++ (refs.map (stepEvents receiver rp)).flatten := by
  obtain ⟨rs1, hS⟩ := discover_Search comm _ n refs h
  have hq : ∀ r ∈ refs, r.Quiet := fun r hr => (discover_quiet comm rp n refs h r hr).1
  have hlen : ¬ (refs.length = 0) := by
    intro h0
    exact hne (List.length_eq_zero.1 h0)
  unfold NewResolveReferences
  simp only [Object.Type, Object.Name, hS, hlen, if_false, resolverLoop_eq, Bool.false_or,
    List.nil_append]
  refine ⟨_, rfl, ?_⟩
  unfold events declEvents
  cases h1 : refs.any (fun ref => !ref.IsList) <;> cases h2 : refs.any (fun ref => ref.IsList) <;>
  · simp only [Bool.false_eq_true, if_false, if_true, List.nil_append, List.cons_append,
      List.append_nil]
    simp only [events_stmt, classify_steps, eventsOf_steps _ _ _ hq,
      eventsOf_cons, eventsOf_nil, events_call, events_values,
      events_listOf, events_if, events_block, events_return, events_params,
      events_id, events_op, events_qual, events_dot, events_lit, events_err, events_nilCode,
      events_line, events_var, events_error, events_func]
    simp only [classify, Option.toList, List.append_nil, List.nil_append, List.cons_append]

theorem forall₂_map_of_forall {α β : Type} (P : α → β → Prop) (g : α → β) (l : List α)
    (h : ∀ a ∈ l, P a (g a)) : List.Forall₂ P l (l.map g) := by
  induction l with
  | nil => exact List.Forall₂.nil
  | cons a rest ih =>
    exact List.Forall₂.cons (h a (List.mem_cons_self a rest))
      (ih (fun x hx => h x (List.mem_cons_of_mem a hx)))

theorem declEvents_declare (rp : String) (refs : List Reference) :
    ∀ e ∈ declEvents rp refs, e.isDeclare = true := by
  intro e he
  unfold declEvents at he
  simp only [List.mem_append] at he
  rcases he with (he | he) | he
  · cases h1 : refs.any (fun ref => !ref.IsList)
    · simp [h1] at he
    · simp only [h1, if_true, List.mem_singleton] at he
      subst he
      rfl
  · cases h2 : refs.any (fun ref => ref.IsList)
    · simp [h2] at he
    · simp only [h2, if_true, List.mem_singleton] at he
      subst he
      rfl
  · simp only [List.mem_singleton] at he
    subst he
    rfl

theorem rest_no_call (a b c : Event) (ha : a.isCall = false) (hb : b.isCall = false)
    (hc : c.isCall = false) : ∀ e ∈ [a, b, c], e.isCall = false := by
  intro e he
  simp only [List.mem_cons, List.mem_singleton, List.not_mem_nil, or_false] at he
  rcases he with he | he | he <;> subst he <;> assumption

/-- C12 (amended): for a non-empty list of discovered references the
generated method consists of declarations followed by one step per
reference, in the order of the references; the step of a reference starts
with its only call: `rsp, err = r.Resolve(ctx, ...)` when IsList is false,
`mrsp, err = r.ResolveMultiple(ctx, ...)` when IsList is true. The reference
and selector arguments are the receiver field accesses named by
GoRefFieldPath and GoSelectorFieldPath, and the current-value argument is
the receiver field access named by GoValueFieldPath, passed through
`FromPtrValue` when IsPointer is true. -/
theorem resolution_steps (comm : Comments) (receiver clientPath rp : String) (f : File)
    (name : String) (n : Named) (refs : List Reference)
    (h : discover comm (defaultExtractor rp) n = some refs) (hne : refs ≠ []) :
    ∃ m decls steps,
      NewResolveReferences comm receiver clientPath rp f (.mk name (.Named n)) =
        some (f ++ [[Code.Comment ("ResolveReferences of this " ++ name ++ ".")], m]) ∧
      events m = decls ++ steps.flatten ∧
      (∀ e ∈ decls, e.isCall = false) ∧
      List.Forall₂
        (fun r step => ∃ c rest, step = c :: rest ∧ (∀ e ∈ rest, e.isCall = false) ∧
          (r.IsList = false →
            (∃ args, c = Event.call [Code.Stmt [Code.Id "rsp"], Code.Stmt [Code.Err]] "=" "r"
              "Resolve" args) ∧
            c.argument "CurrentValue" = some (Code.Stmt
              (if r.IsPointer then
                [Code.Qual rp "FromPtrValue",
                  Code.Call [Code.Stmt (fieldAccess receiver r.GoValueFieldPath)]]
              else fieldAccess receiver r.GoValueFieldPath)) ∧
            c.argument "Reference" =
              some (Code.Stmt (fieldAccess receiver r.GoRefFieldPath))) ∧
          (r.IsList = true →
            (∃ args, c = Event.call [Code.Stmt [Code.Id "mrsp"], Code.Stmt [Code.Err]] "=" "r"
              "ResolveMultiple" args) ∧
            c.argument "CurrentValues" =
              some (Code.Stmt (fieldAccess receiver r.GoValueFieldPath)) ∧
            c.argument "References" =
              some (Code.Stmt (fieldAccess receiver r.GoRefFieldPath))) ∧
          c.argument "Selector" =
            some (Code.Stmt (fieldAccess receiver r.GoSelectorFieldPath)))
        refs steps := by
  obtain ⟨m, hm, hev⟩ := events_method comm receiver clientPath rp f name n refs h hne
  refine ⟨m, declEvents rp refs, refs.map (stepEvents receiver rp), hm, hev, ?_, ?_⟩
  · intro e he
    have := declEvents_declare rp refs e he
    cases e <;> simp_all [Event.isCall, Event.isDeclare]
  · apply forall₂_map_of_forall
    intro r _
    unfold stepEvents
    cases hl : r.IsList <;> cases hp : r.IsPointer <;>
    · simp only [Bool.false_eq_true, if_false, if_true]
      refine ⟨_, _, rfl, rest_no_call _ _ _ rfl rfl rfl, ?_, ?_, rfl⟩
      · intro hx
        first
          | exact ⟨⟨_, rfl⟩, rfl, rfl⟩
          | cases hx
      · intro hx
        first
          | exact ⟨⟨_, rfl⟩, rfl, rfl⟩
          | cases hx

theorem resolution_steps_witness :
    discover bucketComments (defaultExtractor "reference") optionalType =
      some [optionalReference] ∧
    [optionalReference] ≠ [] ∧
    ∃ m decls steps,
      NewResolveReferences bucketComments "mg" "client" "reference" []
          (.mk "Optional" (.Named optionalType)) =
        some ([] ++ [[Code.Comment ("ResolveReferences of this " ++ "Optional" ++ ".")], m]) ∧
      events m = decls ++ steps.flatten ∧
      (∀ e ∈ decls, e.isCall = false) ∧
      List.Forall₂
        (fun r step => ∃ c rest, step = c :: rest ∧ (∀ e ∈ rest, e.isCall = false) ∧
          (r.IsList = false →
            (∃ args, c = Event.call [Code.Stmt [Code.Id "rsp"], Code.Stmt [Code.Err]] "=" "r"
              "Resolve" args) ∧
            c.argument "CurrentValue" = some (Code.Stmt
              (if r.IsPointer then
                [Code.Qual "reference" "FromPtrValue",
                  Code.Call [Code.Stmt (fieldAccess "mg" r.GoValueFieldPath)]]
              else fieldAccess "mg" r.GoValueFieldPath)) ∧
            c.argument "Reference" =
              some (Code.Stmt (fieldAccess "mg" r.GoRefFieldPath))) ∧
          (r.IsList = true →
            (∃ args, c = Event.call [Code.Stmt [Code.Id "mrsp"], Code.Stmt [Code.Err]] "=" "r"
              "ResolveMultiple" args) ∧
            c.argument "CurrentValues" =
              some (Code.Stmt (fieldAccess "mg" r.GoValueFieldPath)) ∧
            c.argument "References" =
              some (Code.Stmt (fieldAccess "mg" r.GoRefFieldPath))) ∧
          c.argument "Selector" =
            some (Code.Stmt (fieldAccess "mg" r.GoSelectorFieldPath)))
        [optionalReference] steps :=
  ⟨rfl, List.cons_ne_nil _ _,
    resolution_steps bucketComments "mg" "client" "reference" [] "Optional" optionalType
      [optionalReference] rfl (List.cons_ne_nil _ _)⟩

/-- C12 (counterexample): for `Optional { Bucket *string }` the current
value passed to `Resolve` is `FromPtrValue(mg.Bucket)`, not the receiver
field access `mg.Bucket`. -/
theorem current_value_counterexample :
    (NewResolveReferences bucketComments "mg" "client" "reference" [] optionalObject).map
        (fun out => (out.map events).flatten.filterMap (Event.argument "CurrentValue")) =
      some [Code.Stmt [Code.Qual "reference" "FromPtrValue",
        Code.Call [Code.Stmt [Code.Id "mg", Code.Dot "Bucket"]]]] ∧
    fieldAccess "mg" optionalReference.GoValueFieldPath = [Code.Id "mg", Code.Dot "Bucket"] ∧
    Code.Stmt [Code.Qual "reference" "FromPtrValue",
        Code.Call [Code.Stmt [Code.Id "mg", Code.Dot "Bucket"]]] ≠
      Code.Stmt (fieldAccess "mg" optionalReference.GoValueFieldPath) := by
  refine ⟨rfl, rfl, ?_⟩
  intro h
  have h2 : fieldAccess "mg" optionalReference.GoValueFieldPath =
      [Code.Id "mg", Code.Dot "Bucket"] := rfl
  rw [h2] at h
  injection h with h
  injection h with h _
  cases h

theorem stepEvents_not_declare (receiver rp : String) (r : Reference) :
    ∀ e ∈ stepEvents receiver rp r, e.isDeclare = false := by
  intro e he
  unfold stepEvents at he
  cases hl : r.IsList <;>
  · simp only [hl, Bool.false_eq_true, if_false, if_true, List.mem_cons, List.mem_singleton,
      List.not_mem_nil, or_false] at he
    rcases he with he | he | he | he <;> subst he <;> rfl

theorem any_true_of_mem (refs : List Reference) (p : Reference → Bool)
    (h : ∃ r ∈ refs, p r = true) : refs.any p = true := by
  rw [List.any_eq_true]
  exact h

theorem any_false_of_all (refs : List Reference) (p : Reference → Bool)
    (h : ∀ r ∈ refs, p r = false) : refs.any p = false := by
  cases hc : refs.any p with
  | false => rfl
  | true =>
    rw [List.any_eq_true] at hc
    obtain ⟨r, hr, hp⟩ := hc
    rw [h r hr] at hp
    cases hp

/-- C13: for a non-empty list of discovered references the events of the
generated method are the declarations of `rsp`, of `mrsp` and of `err`
followed by one step per reference, and no step declares anything: `rsp` is
declared (once) when some reference has IsList false and not when all have
IsList true, `mrsp` is declared (once) when some reference has IsList true
and not when all have IsList false. -/
theorem response_declarations (comm : Comments) (receiver clientPath rp : String) (f : File)
    (name : String) (n : Named) (refs : List Reference)
    (h : discover comm (defaultExtractor rp) n = some refs) (hne : refs ≠ []) :
    ∃ (m : Statement) (single multi : List Event) (steps : List (List Event)),
      NewResolveReferences comm receiver clientPath rp f (.mk name (.Named n)) =
        some (f ++ [[Code.Comment ("ResolveReferences of this " ++ name ++ ".")], m]) ∧
      events m = single ++ multi ++ [Event.declare [Code.Err, Code.Error]] ++ steps.flatten ∧
      steps.length = refs.length ∧
      (∀ step ∈ steps, ∀ e ∈ step, e.isDeclare = false) ∧
      ((∃ r ∈ refs, r.IsList = false) →
        single = [Event.declare [Code.Id "rsp", Code.Qual rp "ResolutionResponse"]]) ∧
      ((∀ r ∈ refs, r.IsList = true) → single = []) ∧
      ((∃ r ∈ refs, r.IsList = true) →
        multi = [Event.declare [Code.Id "mrsp", Code.Qual rp "MultiResolutionResponse"]]) ∧
      ((∀ r ∈ refs, r.IsList = false) → multi = []) := by
  obtain ⟨m, hm, hev⟩ := events_method comm receiver clientPath rp f name n refs h hne
  refine ⟨m, _, _, refs.map (stepEvents receiver rp), hm, hev, by simp, ?_, ?_, ?_, ?_, ?_⟩
  · intro step hs e he
    rw [List.mem_map] at hs
    obtain ⟨r, _, hr⟩ := hs
    subst hr
    exact stepEvents_not_declare receiver rp r e he
  · intro hx
    rw [any_true_of_mem refs _ (by
      obtain ⟨r, hr, hl⟩ := hx
      exact ⟨r, hr, by simp [hl]⟩)]
    rfl
  · intro hx
    rw [any_false_of_all refs _ (fun r hr => by simp [hx r hr])]
    rfl
  · intro hx
    rw [any_true_of_mem refs _ hx]
    rfl
  · intro hx
    rw [any_false_of_all refs _ hx]
    rfl

theorem response_declarations_witness :
    discover bucketComments (defaultExtractor "reference") singleType =
      some [singleReference] ∧
    [singleReference] ≠ [] ∧
    ∃ (m : Statement) (single multi : List Event) (steps : List (List Event)),
      NewResolveReferences bucketComments "mg" "client" "reference" []
          (.mk "Single" (.Named singleType)) =
        some ([] ++ [[Code.Comment ("ResolveReferences of this " ++ "Single" ++ ".")], m]) ∧
      events m = single ++ multi ++ [Event.declare [Code.Err, Code.Error]] ++ steps.flatten ∧
      steps.length = [singleReference].length ∧
      (∀ step ∈ steps, ∀ e ∈ step, e.isDeclare = false) ∧
      ((∃ r ∈ [singleReference], r.IsList = false) →
        single = [Event.declare [Code.Id "rsp", Code.Qual "reference" "ResolutionResponse"]]) ∧
      ((∀ r ∈ [singleReference], r.IsList = true) → single = []) ∧
      ((∃ r ∈ [singleReference], r.IsList = true) →
        multi =
          [Event.declare [Code.Id "mrsp", Code.Qual "reference" "MultiResolutionResponse"]]) ∧
      ((∀ r ∈ [singleReference], r.IsList = false) → multi = []) :=
  ⟨rfl, List.cons_ne_nil _ _,
    response_declarations bucketComments "mg" "client" "reference" [] "Single" singleType
      [singleReference] rfl (List.cons_ne_nil _ _)⟩

/-- C16: the function returned by `NewResolveReferences` leaves the file as
it is (adds no comment, method or declaration) for an object whose type is
not a named type and for a named type for which `Search` discovers no
reference. -/
theorem nothing_generated (comm : Comments) (receiver clientPath rp : String) (f : File)
    (o : Object) :
    ((∀ n, o.Type ≠ GoType.Named n) →
      NewResolveReferences comm receiver clientPath rp f o = some f) ∧
    (∀ n, o.Type = GoType.Named n → discover comm (defaultExtractor rp) n = some [] →
      NewResolveReferences comm receiver clientPath rp f o = some f) := by
  obtain ⟨name, type⟩ := o
  constructor
  · intro hn
    unfold NewResolveReferences
    cases type with
    | Named n => exact absurd rfl (hn n)
    | Basic _ => rfl
    | Pointer _ => rfl
    | Slice _ => rfl
    | Struct _ => rfl
  · intro n hn hd
    simp only [Object.Type] at hn
    subst hn
    obtain ⟨rs1, hS⟩ := discover_Search comm _ n [] hd
    unfold NewResolveReferences
    simp only [Object.Type, hS, List.length_nil, if_true]

theorem nothing_generated_witness :
    (∀ n, plainObject.Type ≠ GoType.Named n) ∧
    NewResolveReferences noComments "mg" "client" "reference" [[Code.Comment "kept"]]
      plainObject = some [[Code.Comment "kept"]] ∧
    nestedObject.Type = GoType.Named nestedType ∧
    discover noComments (defaultExtractor "reference") nestedType = some [] ∧
    NewResolveReferences noComments "mg" "client" "reference" [[Code.Comment "kept"]]
      nestedObject = some [[Code.Comment "kept"]] :=
  ⟨(fun _ h => nomatch h),
    (nothing_generated noComments "mg" "client" "reference" [[Code.Comment "kept"]]
      plainObject).1 (fun _ h => nomatch h),
    rfl, rfl,
    (nothing_generated noComments "mg" "client" "reference" [[Code.Comment "kept"]]
      nestedObject).2 nestedType rfl rfl⟩

/-- C17: for a non-empty list of discovered references the events of the
generated method are declarations followed by one step per reference, in
the order of the references, and every step, single or batch, is exactly:
the resolution call, then the check `if err != nil` whose body returns
`errors.Wrapf(err, <GoValueFieldPath>)`, then the assignment to the value
field, then the assignment to the reference field. -/
theorem error_check_after_call (comm : Comments) (receiver clientPath rp : String) (f : File)
    (name : String) (n : Named) (refs : List Reference)
    (h : discover comm (defaultExtractor rp) n = some refs) (hne : refs ≠ []) :
    ∃ (m : Statement) (decls : List Event) (steps : List (List Event)),
      NewResolveReferences comm receiver clientPath rp f (.mk name (.Named n)) =
        some (f ++ [[Code.Comment ("ResolveReferences of this " ++ name ++ ".")], m]) ∧
      events m = decls ++ steps.flatten ∧
      (∀ e ∈ decls, e.isDeclare = true) ∧
      List.Forall₂
        (fun r step => ∃ c value reference,
          step =
            [ c,
              Event.check [Code.Stmt [Code.Err, Code.Op "!=", Code.Nil]]
                [Code.Stmt [Code.Return [Code.Stmt [Code.Qual "github.com/pkg/errors" "Wrapf",
                  Code.Call [Code.Stmt [Code.Err], Code.Stmt [Code.Lit r.GoValueFieldPath]]]]]],
              Event.assign (fieldAccess receiver r.GoValueFieldPath) "=" value,
              Event.assign (fieldAccess receiver r.GoRefFieldPath) "=" reference ] ∧
          c.isCall = true)
        refs steps := by
  obtain ⟨m, hm, hev⟩ := events_method comm receiver clientPath rp f name n refs h hne
  refine ⟨m, declEvents rp refs, refs.map (stepEvents receiver rp), hm, hev,
    declEvents_declare rp refs, ?_⟩
  apply forall₂_map_of_forall
  intro r _
  unfold stepEvents
  cases hl : r.IsList <;>
  · simp only [Bool.false_eq_true, if_false, if_true]
    exact ⟨_, _, _, rfl, rfl⟩

theorem error_check_after_call_witness :
    discover bucketComments (defaultExtractor "reference") manyType = some [manyReference] ∧
    [manyReference] ≠ [] ∧
    ∃ (m : Statement) (decls : List Event) (steps : List (List Event)),
      NewResolveReferences bucketComments "mg" "client" "reference" []
          (.mk "Many" (.Named manyType)) =
        some ([] ++ [[Code.Comment ("ResolveReferences of this " ++ "Many" ++ ".")], m]) ∧
      events m = decls ++ steps.flatten ∧
      (∀ e ∈ decls, e.isDeclare = true) ∧
      List.Forall₂
        (fun r step => ∃ c value reference,
          step =
            [ c,
              Event.check [Code.Stmt [Code.Err, Code.Op "!=", Code.Nil]]
                [Code.Stmt [Code.Return [Code.Stmt [Code.Qual "github.com/pkg/errors" "Wrapf",
                  Code.Call [Code.Stmt [Code.Err], Code.Stmt [Code.Lit r.GoValueFieldPath]]]]]],
              Event.assign (fieldAccess "mg" r.GoValueFieldPath) "=" value,
              Event.assign (fieldAccess "mg" r.GoRefFieldPath) "=" reference ] ∧
          c.isCall = true)
        [manyReference] steps :=
  ⟨rfl, List.cons_ne_nil _ _,
    error_check_after_call bucketComments "mg" "client" "reference" [] "Many" manyType
      [manyReference] rfl (List.cons_ne_nil _ _)⟩

/-- C18: for a non-empty list of discovered references the events of the
generated method are declarations followed by one step per reference; in
the step of a reference with IsPointer true the call passes
`FromPtrValue(<value field>)` as CurrentValue and the value field is
assigned `ToPtrValue(rsp.ResolvedValue)`; in the step of a reference with
IsPointer false and IsList false the call passes the value field itself and
the value field is assigned `rsp.ResolvedValue`; and no discovered
reference has both IsPointer and IsList true. -/
theorem pointer_wrapping (comm : Comments) (receiver clientPath rp : String) (f : File)
    (name : String) (n : Named) (refs : List Reference)
    (h : discover comm (defaultExtractor rp) n = some refs) (hne : refs ≠ []) :
    ∃ (m : Statement) (decls : List Event) (steps : List (List Event)),
      NewResolveReferences comm receiver clientPath rp f (.mk name (.Named n)) =
        some (f ++ [[Code.Comment ("ResolveReferences of this " ++ name ++ ".")], m]) ∧
      events m = decls ++ steps.flatten ∧
      (∀ e ∈ decls, e.isDeclare = true) ∧
      List.Forall₂
        (fun r step => ∃ c check value reference,
          step = [c, check, Event.assign (fieldAccess receiver r.GoValueFieldPath) "=" value,
            reference] ∧
          ¬ (r.IsPointer = true ∧ r.IsList = true) ∧
          (r.IsPointer = true →
            c.argument "CurrentValue" = some (Code.Stmt [Code.Qual rp "FromPtrValue",
              Code.Call [Code.Stmt (fieldAccess receiver r.GoValueFieldPath)]]) ∧
            value = [Code.Qual rp "ToPtrValue",
              Code.Call [Code.Stmt [Code.Id "rsp", Code.Dot "ResolvedValue"]]]) ∧
          (r.IsPointer = false → r.IsList = false →
            c.argument "CurrentValue" =
              some (Code.Stmt (fieldAccess receiver r.GoValueFieldPath)) ∧
            value = [Code.Id "rsp", Code.Dot "ResolvedValue"]))
        refs steps := by
  obtain ⟨m, hm, hev⟩ := events_method comm receiver clientPath rp f name n refs h hne
  refine ⟨m, declEvents rp refs, refs.map (stepEvents receiver rp), hm, hev,
    declEvents_declare rp refs, ?_⟩
  apply forall₂_map_of_forall
  intro r hr
  have hnb := (discover_quiet comm rp n refs h r hr).2
  unfold stepEvents
  cases hl : r.IsList <;> cases hp : r.IsPointer
  · simp only [Bool.false_eq_true, if_false]
    refine ⟨_, _, _, _, rfl, ?_, ?_, ?_⟩
    · simp
    · simp
    · intro _ _
      exact ⟨rfl, rfl⟩
  · simp only [Bool.false_eq_true, if_false, if_true]
    refine ⟨_, _, _, _, rfl, ?_, ?_, ?_⟩
    · simp
    · intro _
      exact ⟨rfl, rfl⟩
    · simp
  · simp only [if_true]
    refine ⟨_, _, _, _, rfl, ?_, ?_, ?_⟩
    · simp
    · simp
    · simp
  · exact absurd ⟨hl, hp⟩ hnb

theorem pointer_wrapping_witness :
    discover bucketComments (defaultExtractor "reference") optionalType =
      some [optionalReference] ∧
    [optionalReference] ≠ [] ∧
    ∃ (m : Statement) (decls : List Event) (steps : List (List Event)),
      NewResolveReferences bucketComments "mg" "client" "reference" []
          (.mk "Optional" (.Named optionalType)) =
        some ([] ++ [[Code.Comment ("ResolveReferences of this " ++ "Optional" ++ ".")], m]) ∧
      events m = decls ++ steps.flatten ∧
      (∀ e ∈ decls, e.isDeclare = true) ∧
      List.Forall₂
        (fun r step => ∃ c check value reference,
          step = [c, check, Event.assign (fieldAccess "mg" r.GoValueFieldPath) "=" value,
            reference] ∧
          ¬ (r.IsPointer = true ∧ r.IsList = true) ∧
          (r.IsPointer = true →
            c.argument "CurrentValue" = some (Code.Stmt [Code.Qual "reference" "FromPtrValue",
              Code.Call [Code.Stmt (fieldAccess "mg" r.GoValueFieldPath)]]) ∧
            value = [Code.Qual "reference" "ToPtrValue",
              Code.Call [Code.Stmt [Code.Id "rsp", Code.Dot "ResolvedValue"]]]) ∧
          (r.IsPointer = false → r.IsList = false →
            c.argument "CurrentValue" =
              some (Code.Stmt (fieldAccess "mg" r.GoValueFieldPath)) ∧
            value = [Code.Id "rsp", Code.Dot "ResolvedValue"]))
        [optionalReference] steps :=
  ⟨rfl, List.cons_ne_nil _ _,
    pointer_wrapping bucketComments "mg" "client" "reference" [] "Optional" optionalType
      [optionalReference] rfl (List.cons_ne_nil _ _)⟩

end Method
